import Mathlib

/-!
Verification of the command-console core of an RP2040 USB-serial CLI firmware.

The development shallowly embeds the relevant Rust modules:
* `src/fifo_buffer.rs`   — fixed-capacity byte queue (`FifoBuffer`);
* `src/serial_io.rs`     — byte transport (`Serialio::poll_for_interrupt`,
  `Serialio::read_line_blocking`);
* `src/tasklet.rs`       — cooperative timer task (`Tasklet`);
* `src/system/config.rs` — pin resource table (`Config::take_pin`, `take_pin_by_alias`);
* `src/simple_cli/mod.rs`    — tokenizer `parse_input`, dispatcher `Cli::execute_command`;
* `src/simple_cli/parser.rs` — tokenizer `ParsedCommand::parse`;
* `src/simple_cli/commands.rs` — `help_cmd` / `help`;
* `src/pin_config.rs`    — the compiled-in pin definition table.

Machine integers that can only shrink inside guarded branches are modelled as `Nat`;
byte strings are modelled as `List Char` (the firmware only ever handles ASCII lines).
Hardware effects (USB reads, countdown timers) are modelled as explicit event inputs.
-/

namespace PicoSpec

-- ———————————————————————————————————————————————————————————————————————————
-- Shared ASCII helpers (Rust char::to_ascii_lowercase / eq_ignore_ascii_case)
-- ———————————————————————————————————————————————————————————————————————————

/-- Rust `char::is_ascii_uppercase`. -/
def isAsciiUppercase (c : Char) : Bool :=
  'A' ≤ c && c ≤ 'Z'

/-- Rust `char::to_ascii_lowercase`: shift an ASCII capital by 32, leave the rest. -/
def toAsciiLowercase (c : Char) : Char :=
  if isAsciiUppercase c then Char.ofNat (c.toNat + 32) else c

/-- Rust `str::eq_ignore_ascii_case`, on `List Char`. -/
def eqIgnoreAsciiCase (a b : List Char) : Bool :=
  a.map toAsciiLowercase = b.map toAsciiLowercase

/-- Rust `char::is_ascii_whitespace`: space, tab, newline, form feed, carriage return. -/
def isAsciiWhitespace (c : Char) : Bool :=
  c = ' ' || c = '\t' || c = '\n' || c = Char.ofNat 12 || c = '\r'

/-- The private separator sentinel `0x1E` both tokenizers substitute for spaces in quotes. -/
def sepChar : Char := Char.ofNat 30

-- ———————————————————————————————————————————————————————————————————————————
-- src/fifo_buffer.rs — FifoBuffer<BUF_SIZE>
-- ———————————————————————————————————————————————————————————————————————————

/-- `FifoBuffer<BUF_SIZE>`: a backing array (kept at its full length `size`) and the
`used` cursor.  The backing store must be kept explicit because `add_byte` writes
beyond the `used` cursor. -/
structure FifoBuffer where
  store : List Nat
  used  : Nat
deriving DecidableEq, Repr

namespace FifoBuffer

/-- `FifoBuffer::new` for a given capacity: zero-filled backing array, `used = 0`. -/
def new (size : Nat) : FifoBuffer :=
  ⟨List.replicate size 0, 0⟩

/-- `FifoBuffer::is_full` — `used == buffer.len()`. -/
def isFull (f : FifoBuffer) : Bool :=
  f.used = f.store.length

/-- `FifoBuffer::len` — the `used` cursor. -/
def len (f : FifoBuffer) : Nat := f.used

/-- `FifoBuffer::data` — the filled region `buffer[0..used]`. -/
def data (f : FifoBuffer) : List Nat :=
  f.store.take f.used

/-- `FifoBuffer::advance` — `used = (used + n).clamp(0, buffer.len())`. -/
def advance (f : FifoBuffer) (n : Nat) : FifoBuffer :=
  { f with used := min (f.used + n) f.store.length }

/-- `FifoBuffer::add_byte`, exactly as written in the source:

```rust
if self.used + 1 >= self.buffer.len() { return false; }
self.buffer[self.used + 1] = byte;
self.used += 1;
true
```

Note the guard fires already when one slot is free, and the write lands at
index `used + 1`, not `used`. -/
def addByte (f : FifoBuffer) (byte : Nat) : Bool × FifoBuffer :=
  if f.used + 1 ≥ f.store.length then
    (false, f)
  else
    (true, { f with store := f.store.set (f.used + 1) byte, used := f.used + 1 })

end FifoBuffer

-- ———————————————————————————————————————————————————————————————————————————
-- src/serial_io.rs — Serialio::poll_for_interrupt and friends
-- ———————————————————————————————————————————————————————————————————————————

/-- `INTERRUPT_CHAR: u8 = b'~'`. -/
def INTERRUPT_CHAR : Nat := 126

/-- The read loop of `Serialio::poll_for_interrupt`: successive `serial.read`
results are modelled as a list of chunks; an empty chunk stands for a read that
returned no data (`WouldBlock` or `Ok(0)`), which takes the `_` arm and clears
the flag.  A chunk containing `'~'` sets the flag and returns (the source then
flushes the rest of the receive buffer, which only discards further input). -/
def pollForInterruptLoop : List (List Nat) → Bool
  | [] => false
  | c :: rest =>
    if c.length > 0 then
      if INTERRUPT_CHAR ∈ c then true else pollForInterruptLoop rest
    else
      false

/-- `Serialio::poll_for_interrupt`: the new value of `interrupt_cmd_triggered`
after one call, given the flag's previous value, the DTR flag and the pending
receive chunks.  `prev` is never read: every path through the source stores a
fresh value into the flag before returning (`false` when DTR is down, `true`
on a `'~'` match, `false` once a read yields no data).  When DTR is down the
source sets the flag to `false` and returns early. -/
def pollForInterrupt (prev dtr : Bool) (chunks : List (List Nat)) : Bool :=
  if dtr then pollForInterruptLoop chunks else false

/-- `SerialHandle::clear_interrupt_cmd` — unconditionally stores `false`. -/
def clearInterruptCmd : Bool := false

-- ———————————————————————— Serialio::read_line_blocking ————————————————————————

/-- One observable step of the byte-read inner loop of `read_line_blocking`:
either `serial.read` yields a byte, or it yields `WouldBlock` and the code
samples the DTR flag, or it yields some other USB error. -/
inductive RxEvent where
  | byte (b : Nat)
  | wouldBlock (dtr : Bool)
  | readErr
deriving DecidableEq, Repr

/-- Result alphabet of `read_line_blocking`; `blocked` marks an exhausted event
trace (the real code would still be busy-polling). -/
inductive RlbResult where
  | ok (stored : List Nat)
  | invalidEndpoint
  | bufferOverflow
  | otherErr
  | blocked
deriving DecidableEq, Repr

/-- The main loop of `Serialio::read_line_blocking` over an event trace.
`stored` is the content written into the caller buffer so far, `cap` its
length, `overflow` the local flag.  Returns the result together with the
unconsumed remainder of the trace. -/
def readLineLoop (cap : Nat) (stored : List Nat) (overflow : Bool) :
    List RxEvent → RlbResult × List RxEvent
  | [] => (.blocked, [])
  | .readErr :: rest => (.otherErr, rest)
  | .wouldBlock d :: rest =>
    if d then readLineLoop cap stored overflow rest
    else (.invalidEndpoint, rest)
  | .byte b :: rest =>
    if b = 10 then
      if overflow then (.bufferOverflow, rest) else (.ok stored, rest)
    else if stored.length < cap then
      readLineLoop cap (stored ++ [b]) overflow rest
    else
      readLineLoop cap stored true rest

/-- `Serialio::read_line_blocking`: the entry DTR check, then the loop with an
empty buffer and a clear overflow flag. -/
def readLineBlocking (dtr0 : Bool) (cap : Nat) (events : List RxEvent) :
    RlbResult × List RxEvent :=
  if dtr0 then readLineLoop cap [] false events
  else (.invalidEndpoint, events)

/-- The data bytes delivered by a trace segment (specification side). -/
def dataBytes (l : List RxEvent) : List Nat :=
  l.filterMap fun e => match e with | .byte b => some b | _ => none

-- ———————————————————————————————————————————————————————————————————————————
-- src/tasklet.rs — Tasklet
-- ———————————————————————————————————————————————————————————————————————————

/-- `Tasklet` state.  The hardware countdown is not part of the state: whether
`count_down.wait()` has elapsed is supplied as an oracle input to each poll
(`start`/`cancel` only re-arm or stop that countdown, and the countdown is
never consulted in a state where a pending `cancel` matters, because the
exhaustion guard runs first and `reset` re-starts it on the next first poll). -/
@[ext]
structure Tasklet where
  interval      : Nat
  initialRuns   : Nat
  remainingRuns : Nat
  isFirstPoll   : Bool
deriving DecidableEq, Repr

namespace Tasklet

/-- `Tasklet::new(interval_ms, runs, timer)`. -/
def new (intervalMs runs : Nat) : Tasklet :=
  ⟨intervalMs * 1000, runs, runs, true⟩

/-- `Tasklet::is_ready`, with `elapsed` the oracle result of
`count_down.wait().is_ok()` at this poll.  The `u16` decrements are guarded by
`initial_runs != 0 && remaining_runs == 0` checks in the source, so they never
underflow and `Nat` subtraction is exact here. -/
def isReady (t : Tasklet) (elapsed : Bool) : Bool × Tasklet :=
  if t.isFirstPoll then
    (true, { t with
      isFirstPoll := false,
      remainingRuns := if t.initialRuns ≠ 0 then t.remainingRuns - 1 else t.remainingRuns })
  else if t.initialRuns ≠ 0 ∧ t.remainingRuns = 0 then
    (false, t)
  else if elapsed then
    (true, { t with
      remainingRuns := if t.initialRuns ≠ 0 then t.remainingRuns - 1 else t.remainingRuns })
  else
    (false, t)

/-- `Tasklet::is_exhausted`. -/
def isExhausted (t : Tasklet) : Bool :=
  t.initialRuns ≠ 0 && t.remainingRuns = 0

/-- `Tasklet::reset`. -/
def reset (t : Tasklet) : Tasklet :=
  { t with remainingRuns := t.initialRuns, isFirstPoll := true }

/-- Run a sequence of polls, counting how many returned `true`. -/
def runPolls (t : Tasklet) : List Bool → Nat × Tasklet
  | [] => (0, t)
  | b :: bs =>
    let (r, t1) := t.isReady b
    let (n, t2) := runPolls t1 bs
    ((if r then 1 else 0) + n, t2)

end Tasklet

-- ———————————————————————————————————————————————————————————————————————————
-- src/system/config.rs — Config, PinDef, take_pin, take_pin_by_alias
-- ———————————————————————————————————————————————————————————————————————————

/-- The functional group a pin belongs to (`Group`).  `Other` appears in the
compiled-in table of `src/pin_config.rs`. -/
inductive Group where
  | Reserved | Adc | Pwm | I2c | Spi | Uart | Inputs | Outputs | Other
  | C1_Adc | C1_Pwm | C1_I2c | C1_Spi | C1_Uart | C1_Inputs | C1_Outputs
deriving DecidableEq, Repr

/-- `PinId` of the user-facing definition table. -/
inductive PinId where
  | Gpio (id : Nat)
  | NA
deriving DecidableEq, Repr

/-- `Def`: one row of the user-provided pin definition table. -/
structure PinDefRow where
  alias_ : List Char
  id     : PinId
  group  : Group
deriving DecidableEq, Repr

/-- `PinDef`: one registered pin, with its atomic ownership flag. -/
structure PinDef where
  alias_ : List Char
  id     : Nat
  group  : Group
  taken  : Bool
deriving DecidableEq, Repr

/-- Config error enum of `src/system/config.rs`. -/
inductive ConfigError where
  | GpioNotFound
  | AliasNotFound
  | PinAlreadyConfigured
  | OutOfBounds
deriving DecidableEq, Repr

/-- `Config`: the filtered pin list (capacity `PINOUT_CAPACITY = 30`). -/
structure Config where
  pins : List PinDef
deriving DecidableEq, Repr

namespace Config

/-- The duplicate / range pre-check of `Config::new`: every `Gpio` id must be
at most 29 and appear at most once.  A failed check panics in the source. -/
def precheckOk (definition : List PinDefRow) : Bool :=
  ((definition.filterMap fun d => match d.id with | .Gpio i => some i | .NA => none).all
      fun i => i ≤ 29)
    && (definition.filterMap fun d =>
          match d.id with | .Gpio i => some i | .NA => none).Nodup

/-- The pin list built by `Config::new`: the non-`NA` rows, each with a
cleared `taken` flag (the `NA` placeholder case of the id extraction is dead,
guarded by `unreachable!` in the source). -/
def buildPins (definition : List PinDefRow) : List PinDef :=
  (definition.filter fun d => d.id ≠ PinId.NA).map fun d =>
    { alias_ := d.alias_,
      id := match d.id with | .Gpio i => i | .NA => 0,
      group := d.group,
      taken := false }

/-- `Config::new`: panics (modelled as `none`) on a failed pre-check or when
more than `PINOUT_CAPACITY = 30` real pins are pushed. -/
def new (definition : List PinDefRow) : Option Config :=
  if precheckOk definition then
    if (buildPins definition).length ≤ 30 then some ⟨buildPins definition⟩
    else none
  else none

/-- `Config::get_gpio`: first case-insensitive alias match. -/
def get_gpio (cfg : Config) (alias_ : List Char) : Except ConfigError Nat :=
  match cfg.pins.find? (fun p => eqIgnoreAsciiCase p.alias_ alias_) with
  | some p => .ok p.id
  | none => .error .AliasNotFound

/-- `Config::get_pin_def_by_alias`. -/
def get_pin_def_by_alias (cfg : Config) (alias_ : List Char) : Except ConfigError PinDef :=
  match cfg.pins.find? (fun p => eqIgnoreAsciiCase p.alias_ alias_) with
  | some p => .ok p
  | none => .error .AliasNotFound

/-- Whether the pin registered under `id` is currently taken (the first
matching entry, as all lookups in the source use `find`). -/
def pinTaken (cfg : Config) (id : Nat) : Bool :=
  match cfg.pins.find? (fun p => p.id = id) with
  | some p => p.taken
  | none => false

/-- Mark the first pin with this gpio id as taken (`def.taken.store(true)`). -/
def markTaken : List PinDef → Nat → List PinDef
  | [], _ => []
  | p :: ps, id =>
    if p.id = id then { p with taken := true } :: ps
    else p :: markTaken ps id

/-- `Config::take_pin`: find the pin; `None` if unknown or already taken;
otherwise build the handle (`new_pin_by_gpio_id`, which panics above gpio 29 —
ids stored by `Config::new` are pre-checked to be `≤ 29`, and the
`try_into_function` conversion is modelled as succeeding) and mark the pin
taken.  The handle is represented by the gpio id. -/
def take_pin (cfg : Config) (id : Nat) : Option Nat × Config :=
  match cfg.pins.find? (fun p => p.id = id) with
  | none => (none, cfg)
  | some p =>
    if p.taken then (none, cfg)
    else (some p.id, ⟨markTaken cfg.pins id⟩)

/-- `Config::take_pin_by_alias`: resolve the alias, then `take_pin`, turning
`None` into `PinAlreadyConfigured`. -/
def take_pin_by_alias (cfg : Config) (alias_ : List Char) :
    Except ConfigError Nat × Config :=
  match get_pin_def_by_alias cfg alias_ with
  | .error e => (.error e, cfg)
  | .ok p =>
    match take_pin cfg p.id with
    | (none, cfg1) => (.error .PinAlreadyConfigured, cfg1)
    | (some h, cfg1) => (.ok h, cfg1)

/-- The gpio id an alias currently resolves to (first case-insensitive match),
used to state stability of alias resolution under `take` operations. -/
def aliasId (cfg : Config) (alias_ : List Char) : Option Nat :=
  (cfg.pins.find? (fun p => eqIgnoreAsciiCase p.alias_ alias_)).map (fun p => p.id)

end Config

/-- The mutating operations of the resource table (every other `Config` method
takes `&self` and performs no store on any `taken` flag). -/
inductive ConfigOp where
  | take (id : Nat)
  | takeAlias (alias_ : List Char)
deriving DecidableEq, Repr

/-- Apply one mutating operation, keeping only the state. -/
def ConfigOp.step (cfg : Config) : ConfigOp → Config
  | .take id => (cfg.take_pin id).2
  | .takeAlias a => (cfg.take_pin_by_alias a).2

/-- Run a sequence of mutating operations. -/
def runConfigOps (cfg : Config) : List ConfigOp → Config
  | [] => cfg
  | op :: ops => runConfigOps (op.step cfg) ops

-- ———————————————————————————————————————————————————————————————————————————
-- src/pin_config.rs — PIN_DEFINITION
-- ———————————————————————————————————————————————————————————————————————————

/-- The compiled-in pin definition table `PIN_DEFINITION`. -/
def PIN_DEFINITION : List PinDefRow := [
  ⟨"ADC0".toList, .Gpio 26, .Adc⟩,
  ⟨"ADC1".toList, .Gpio 27, .Adc⟩,
  ⟨"ADC2".toList, .Gpio 28, .Adc⟩,
  ⟨"ADC3".toList, .Gpio 29, .Adc⟩,
  ⟨"PWM0_A".toList, .NA, .Pwm⟩,
  ⟨"PWM0_B".toList, .NA, .Pwm⟩,
  ⟨"PWM1_A".toList, .NA, .Pwm⟩,
  ⟨"PWM1_B".toList, .NA, .Pwm⟩,
  ⟨"PWM2_A".toList, .NA, .Pwm⟩,
  ⟨"PWM2_B".toList, .Gpio 21, .Pwm⟩,
  ⟨"PWM3_A".toList, .Gpio 6, .Pwm⟩,
  ⟨"PWM3_B".toList, .NA, .Pwm⟩,
  ⟨"PWM4_A".toList, .Gpio 8, .Pwm⟩,
  ⟨"PWM4_B".toList, .NA, .Pwm⟩,
  ⟨"PWM5_A".toList, .NA, .Pwm⟩,
  ⟨"PWM5_B".toList, .NA, .Pwm⟩,
  ⟨"PWM6_A".toList, .NA, .Pwm⟩,
  ⟨"PWM6_B".toList, .NA, .Pwm⟩,
  ⟨"PWM7_A".toList, .NA, .Pwm⟩,
  ⟨"PWM7_B".toList, .NA, .Pwm⟩,
  ⟨"I2C0_SDA".toList, .Gpio 2, .I2c⟩,
  ⟨"I2C0_SCL".toList, .NA, .I2c⟩,
  ⟨"I2C1_SDA".toList, .NA, .I2c⟩,
  ⟨"I2C1_SCL".toList, .NA, .I2c⟩,
  ⟨"SPI0_RX".toList, .Gpio 4, .Spi⟩,
  ⟨"SPI0_TX".toList, .NA, .Spi⟩,
  ⟨"SPI0_SCK".toList, .NA, .Spi⟩,
  ⟨"SPI0_CSN".toList, .NA, .Spi⟩,
  ⟨"SPI1_RX".toList, .NA, .Spi⟩,
  ⟨"SPI1_TX".toList, .NA, .Spi⟩,
  ⟨"SPI1_SCK".toList, .NA, .Spi⟩,
  ⟨"SPI1_CSN".toList, .NA, .Spi⟩,
  ⟨"UART0_TX".toList, .Gpio 5, .Uart⟩,
  ⟨"UART0_CTS".toList, .NA, .Uart⟩,
  ⟨"UART0_RX".toList, .NA, .Uart⟩,
  ⟨"UART0_RTS".toList, .NA, .Uart⟩,
  ⟨"UART1_TX".toList, .NA, .Uart⟩,
  ⟨"UART1_RX".toList, .NA, .Uart⟩,
  ⟨"UART1_CTS".toList, .NA, .Uart⟩,
  ⟨"UART1_RTS".toList, .NA, .Uart⟩,
  ⟨"IN_A".toList, .Gpio 9, .Inputs⟩,
  ⟨"IN_B".toList, .Gpio 20, .Inputs⟩,
  ⟨"IN_C".toList, .Gpio 22, .Inputs⟩,
  ⟨"BUTTON".toList, .Gpio 23, .Inputs⟩,
  ⟨"OUT_A".toList, .Gpio 0, .Outputs⟩,
  ⟨"OUT_B".toList, .Gpio 1, .Outputs⟩,
  ⟨"OUT_C".toList, .Gpio 3, .Outputs⟩,
  ⟨"LED".toList, .Gpio 25, .Outputs⟩,
  ⟨"DHT22".toList, .Gpio 16, .Other⟩,
  ⟨"C1_IN_A".toList, .Gpio 10, .C1_Inputs⟩,
  ⟨"C1_OUT_A".toList, .Gpio 11, .C1_Outputs⟩]

-- ———————————————————————————————————————————————————————————————————————————
-- Shared tokenizer plumbing (stage 1 scan, whitespace split, '=' split)
-- ———————————————————————————————————————————————————————————————————————————

/-- Stage 1 of both tokenizers (`simple_cli/mod.rs` and `simple_cli/parser.rs`
contain the same loop, with different buffer capacities): `"` toggles
`in_quotes` and is dropped, a space inside quotes becomes the sentinel, an
ASCII capital is lowercased, anything else is copied.  `none` models a failed
`push` into the bounded `heapless::String` (mapped to `ParseBuffer` by both
callers).  Returns the processed buffer together with the final `in_quotes`. -/
def stage1Aux (cap : Nat) (q : Bool) (acc : List Char) :
    List Char → Option (List Char × Bool)
  | [] => some (acc, q)
  | c :: cs =>
    if c = '"' then stage1Aux cap (!q) acc cs
    else
      let c1 := if c = ' ' ∧ q then sepChar else toAsciiLowercase c
      if acc.length < cap then stage1Aux cap q (acc ++ [c1]) cs else none

/-- Rust `str::split_ascii_whitespace` on `List Char`: split on runs of ASCII
whitespace, yielding no empty tokens.  `cur` is the token being accumulated. -/
def splitWsAux (cur : List Char) : List Char → List (List Char)
  | [] => if cur = [] then [] else [cur]
  | c :: cs =>
    if isAsciiWhitespace c then
      if cur = [] then splitWsAux [] cs else cur :: splitWsAux [] cs
    else
      splitWsAux (cur ++ [c]) cs

/-- Rust `str::split_ascii_whitespace`. -/
def splitWs (l : List Char) : List (List Char) :=
  splitWsAux [] l

/-- Rust `str::split(sep)` on `List Char`: all pieces, empty ones included. -/
def splitOnCharAux (sep : Char) (cur : List Char) : List Char → List (List Char)
  | [] => [cur]
  | c :: cs =>
    if c = sep then cur :: splitOnCharAux sep [] cs
    else splitOnCharAux sep (cur ++ [c]) cs

/-- Rust `str::split(sep)`. -/
def splitOnChar (sep : Char) (l : List Char) : List (List Char) :=
  splitOnCharAux sep [] l

/-- Rust `str::splitn(2, '=')`: the text before the first `'='`, and the text
after it when one exists. -/
def splitFirstEq : List Char → List Char × Option (List Char)
  | [] => ([], none)
  | c :: cs =>
    if c = '=' then ([], some cs)
    else
      let r := splitFirstEq cs
      (c :: r.1, r.2)

/-- Restore the separator sentinel to a literal space (value extraction). -/
def restoreSep (l : List Char) : List Char :=
  l.map fun c => if c = sepChar then ' ' else c

/-- The effect of stage 1 on one character inside quotes (specification
side): a space becomes the sentinel, anything else is kept. -/
def quoteMap (c : Char) : Char :=
  if c = ' ' then sepChar else c

-- ———————————————————————————————————————————————————————————————————————————
-- src/simple_cli/mod.rs — CliError, Arguments, parse_input
-- ———————————————————————————————————————————————————————————————————————————

namespace SimpleCli

/-- `CliError` of `src/simple_cli/mod.rs` (note: no `TooManyArgs`, no
`ArgTooLong` variant exists in this enum). -/
inductive CliError where
  | BufferWrite
  | ParseBuffer
  | IoInput
  | Parse (msg : List Char)
  | MissingArg (msg : List Char)
  | CmdExec (msg : List Char)
  | CmdNotFound (msg : List Char)
  | CriticalFail
  | Other
  | Exit
deriving DecidableEq, Repr

/-- `Arguments`: `param: String<16>`, `value: String<64>`. -/
structure Arguments where
  param : List Char
  value : List Char
deriving DecidableEq, Repr

/-- `CommandWithArgs`: `cmd: String<24>`, `args: Vec<Arguments, 5>`. -/
structure CommandWithArgs where
  cmd  : List Char
  args : List Arguments
deriving DecidableEq, Repr

/-- Stage 3 of `parse_input`: the argument token loop.  A token is split with
`word.split('=').collect::<Vec<&str, 2>>()`, which silently keeps only the
first two pieces.  Bounded pushes: `param` into `String<16>` and `value` into
`String<64>` fail with `ParseBuffer`; pushing a sixth argument into
`Vec<_, 5>` fails with `BufferWrite` in the no-value branch and with
`ParseBuffer` in the value branch. -/
def parseInputArgs : List (List Char) → List Arguments →
    Except CliError (List Arguments)
  | [], args => .ok args
  | w :: ws, args =>
    if w = [] ∨ w = ['='] then parseInputArgs ws args
    else
      let elements := (splitOnChar '=' w).take 2
      if elements.length = 1 then
        if (elements.headD []).length > 16 then .error .ParseBuffer
        else if args.length ≥ 5 then .error .BufferWrite
        else parseInputArgs ws (args ++ [⟨elements.headD [], []⟩])
      else
        let param := elements.headD []
        let rawValue := elements.getD 1 []
        if param.length > 16 then .error .ParseBuffer
        else if rawValue.length > 64 then .error .ParseBuffer
        else if args.length ≥ 5 then .error .ParseBuffer
        else parseInputArgs ws (args ++ [⟨param, restoreSep rawValue⟩])

/-- `parse_input` of `src/simple_cli/mod.rs`: stage 1 into a `String<128>`
(no check of the final `in_quotes`), whitespace split, first token as the
command name (`"help"` when the line is empty, `String<24>` bound), then the
argument loop. -/
def parse_input (input : List Char) : Except CliError CommandWithArgs :=
  match stage1Aux 128 false [] input with
  | none => .error .ParseBuffer
  | some (buf, _) =>
    let toks := splitWs buf
    let cmdStr := toks.headD ("help".toList)
    if cmdStr.length > 24 then .error .ParseBuffer
    else
      match parseInputArgs toks.tail [] with
      | .error e => .error e
      | .ok args => .ok ⟨cmdStr, args⟩

end SimpleCli

-- ———————————————————————————————————————————————————————————————————————————
-- src/simple_cli/parser.rs — ParsedCommand::parse (errors from errors.rs)
-- ———————————————————————————————————————————————————————————————————————————

namespace CliParser

/-- `CliError` of `src/simple_cli/errors.rs` (this enum does declare
`CommandTooLong`, `ArgTooLong` and `TooManyArgs`). -/
inductive CliError where
  | BufferWrite
  | ParseBuffer
  | IoInput
  | Parse (msg : List Char)
  | MissingArg (msg : List Char)
  | CmdExec (msg : List Char)
  | CmdNotFound (msg : List Char)
  | CommandTooLong
  | ArgTooLong
  | TooManyArgs
  | CriticalFail
  | Other
  | Exit
deriving DecidableEq, Repr

/-- `Argument`: `param: String<16>`, `value: String<64>`. -/
structure Argument where
  param : List Char
  value : List Char
deriving DecidableEq, Repr

/-- `ParsedCommand`: `cmd: String<24>`, `args: Vec<Argument, 5>`. -/
structure ParsedCommand where
  cmd  : List Char
  args : List Argument
deriving DecidableEq, Repr

/-- The argument loop of `ParsedCommand::parse`: the orphan-`=` check rejects
a token that is exactly `"="` or starts with `'='` (nothing rejects a token
that merely ends with `'='`); the token is then split with `splitn(2, '=')`;
every bounded push failure maps to `ParseBuffer`. -/
def parseArgs : List (List Char) → List Argument → Except CliError (List Argument)
  | [], args => .ok args
  | w :: ws, args =>
    if w = ['='] ∨ w.headD ' ' = '=' then
      .error (.Parse ("\"=\" delimiter spacing".toList))
    else
      let pv := splitFirstEq w
      if pv.1.length > 16 then .error .ParseBuffer
      else
        let value := match pv.2 with
          | none => ([] : List Char)
          | some v => restoreSep v
        if (match pv.2 with | none => 0 | some v => v.length) > 64 then
          .error .ParseBuffer
        else if args.length ≥ 5 then .error .ParseBuffer
        else parseArgs ws (args ++ [⟨pv.1, value⟩])

/-- `ParsedCommand::parse` of `src/simple_cli/parser.rs`: stage 1 into a
`String<192>`, an unmatched-quote check on the final `in_quotes`, the default
`"help"` command for an empty line, the `String<24>` command-name bound, then
the argument loop. -/
def ParsedCommand.parse (input : List Char) : Except CliError ParsedCommand :=
  match stage1Aux 192 false [] input with
  | none => .error .ParseBuffer
  | some (buf, inQuotes) =>
    if inQuotes then .error (.Parse ("Unmatched Quotes".toList))
    else
      match splitWs buf with
      | [] => .ok ⟨"help".toList, []⟩
      | cmdStr :: ws =>
        if cmdStr.length > 24 then .error .ParseBuffer
        else
          match parseArgs ws [] with
          | .error e => .error e
          | .ok args => .ok ⟨cmdStr, args⟩

end CliParser

-- ———————————————————————————————————————————————————————————————————————————
-- src/simple_cli/mod.rs — CommandList, Cli::execute_command, built_in_help
-- src/simple_cli/commands.rs — build_commands, help_cmd, help
-- ———————————————————————————————————————————————————————————————————————————

namespace SimpleCli

/-- One registered `Command`.  Only `name` and `desc` are observed by the
dispatch and help paths modelled here; the handler function pointer acts on
hardware and is abstracted (`DispatchResult.invoked` records that it ran). -/
structure CmdEntry where
  name : List Char
  desc : List Char
deriving DecidableEq, Repr

/-- `CommandList::get_command`: case-insensitive linear lookup; an unknown
name yields `CmdNotFound(name)` (or `BufferWrite` when the name does not fit
the `String<64>` error payload). -/
def get_command (cmds : List CmdEntry) (name : List Char) :
    Except CliError CmdEntry :=
  match cmds.find? (fun c => eqIgnoreAsciiCase c.name name) with
  | some c => .ok c
  | none =>
    if name.length ≤ 64 then .error (.CmdNotFound name) else .error .BufferWrite

/-- `CommandList::get_description`. -/
def get_description (cmds : List CmdEntry) (name : List Char) :
    Except CliError (List Char) :=
  match get_command cmds name with
  | .ok c => .ok c.desc
  | .error e => .error e

/-- The lines printed by `Cli::built_in_help`: the full table, one line per
registered command. -/
def built_in_help (cmds : List CmdEntry) : List (List Char) :=
  ("\nAvailable Commands:".toList) ::
    ("-----------------------------".toList) ::
    (cmds.map fun c => c.name ++ " - ".toList ++ c.desc) ++
    [("-----------------------------".toList),
     ("For more information type: command_name help\n".toList)]

/-- What `Cli::execute_command` did: printed the whole help table, or invoked
the named handler. -/
inductive DispatchResult where
  | printedTable (lines : List (List Char))
  | invoked (name : List Char)
deriving DecidableEq, Repr

/-- `Cli::execute_command` of `src/simple_cli/mod.rs`: a command named exactly
`"help"` short-circuits to `built_in_help` — before any lookup and without
reading the parsed arguments; anything else is looked up and run. -/
def execute_command (cmds : List CmdEntry) (command : CommandWithArgs) :
    Except CliError DispatchResult :=
  if command.cmd = "help".toList then .ok (.printedTable (built_in_help cmds))
  else
    match get_command cmds command.cmd with
    | .ok c => .ok (.invoked c.name)
    | .error e => .error e

/-- `help` of `src/simple_cli/commands.rs`, returning the printed lines:
`"all"` prints the whole table; a known command name prints a two-line header
and that command's description; anything else is `CmdNotFound`. -/
def help (command : List Char) (cmds : List CmdEntry) :
    Except CliError (List (List Char)) :=
  if command = "all".toList then
    .ok (("All available commands:\n".toList) ::
      (cmds.map fun c => " ".toList ++ c.name ++ " - ".toList ++ c.desc ++ " \n".toList))
  else if command = [] then .error (.CmdNotFound command)
  else
    match get_description cmds command with
    | .ok desc =>
      .ok [(" Help: ".toList) ++ command ++ (" \n".toList),
           (" ".toList) ++ command ++ (" - ".toList) ++ desc ++ (" \n".toList)]
    | .error _ => .error (.CmdNotFound command)

/-- `help_cmd` of `src/simple_cli/commands.rs`: no argument prints the whole
table; otherwise the first argument's parameter name selects the command.
(`CmdNotFound` carries `String::from_str(input).unwrap()`, which panics above
64 bytes; parameters produced by the tokenizers hold at most 16 bytes, where
this model is exact.) -/
def help_cmd (args : List Arguments) (cmds : List CmdEntry) :
    Except CliError (List (List Char)) :=
  match args.head? with
  | none => help ("all".toList) cmds
  | some a =>
    match get_description cmds a.param with
    | .ok _ => help a.param cmds
    | .error _ => .error (.CmdNotFound a.param)

/-- The table built by `build_commands` (names and descriptions; handler
function pointers abstracted). -/
def build_commands : List CmdEntry := [
  ⟨"help".toList, "Show command help - [command_name=all]".toList⟩,
  ⟨"reset".toList, "Reset device - [help]".toList⟩,
  ⟨"flash".toList, "Restart device in USB Flash mode - [help]".toList⟩,
  ⟨"example".toList,
    "Print Example \n <arg(float)> [opt=0(u8)] [on=false(bool)] [path=\"\"(string)] [help]".toList⟩,
  ⟨"blink".toList, "Blink Onboard Led \n [times=10] [interval=200(ms)] [help]".toList⟩,
  ⟨"read_adc".toList, "Read all ADC channels \n [ref_res=10000(ohm)] [help]".toList⟩,
  ⟨"sample_adc".toList,
    ("Continuous sampling of an ADC channel \n [channel=0(u8)] [ref_res=10000(ohm)] " ++
      "[interval=200(ms)] [help]\n Interrupt with char \"~\" ").toList⟩,
  ⟨"servo".toList,
    ("Set Servo PWM on GPIO 8 \n [us=1500(us)] [pause=1500(ms)] [sweep=false(bool)] " ++
      "[max_us=2000(us)] [help]").toList⟩,
  ⟨"set_pwm".toList,
    ("Sets PWM  (defaults on GPIO 6 - PWM3A ) \n [pwm_id=3(id)] [channel=a(a/b)] " ++
      "[freq=50(hz)] [us=-1(us)] [duty=50(%)] \n [top=-1(u16)] [phase=false(bool)] " ++
      "[disable=false(bool)] [help]").toList⟩,
  ⟨"panic_test".toList,
    "Panics the program. On the next serial connection, the panic msg is printed - [help]".toList⟩,
  ⟨"test_gpio".toList,
    "Sets GPIO 0 High when GPIO 9 is Low - [help] \n Interrupt with char \"~\" ".toList⟩,
  ⟨"test_analog".toList,
    ("Voltage controlled PWM Duty Cycle (i.e. Potentiometer on GPIO 26 dimming a Led on GPIO " ++
      "8) - [help] \n Interrupt with char \"~\" ").toList⟩]

end SimpleCli

-- ═══════════════════════════════════════════════════════════════════════════
-- Theorems
-- ═══════════════════════════════════════════════════════════════════════════

-- ———————————————————————————————————————————————————————————————————————————
-- C10 — FifoBuffer::add_byte
-- ———————————————————————————————————————————————————————————————————————————

/-- C10.  The claim (`add_byte(b)` returns `true` whenever at least one slot
is free and appends `b` as the new last byte of `data()`; it returns `false`
exactly when the buffer is full) is contradicted by the code at a concrete
input: on an empty 4-byte buffer, `add_byte(7)` returns `true` but writes the
byte at index `used + 1`, so `data()` becomes `[0]`, not `[7]`; and on a
2-byte buffer with one free slot (`used = 1`, not full), `add_byte` returns
`false`.  This contradicts the method's own documentation ("Add a single
byte, return false if full"). -/
theorem c10_add_byte_bug :
    ((FifoBuffer.new 4).addByte 7).1 = true ∧
    ((FifoBuffer.new 4).addByte 7).2.data = [0] ∧
    ((FifoBuffer.new 4).addByte 7).2.data ≠ (FifoBuffer.new 4).data ++ [7] ∧
    ((FifoBuffer.new 2).advance 1).isFull = false ∧
    (((FifoBuffer.new 2).advance 1).addByte 7).1 = false := by
  decide

-- ———————————————————————————————————————————————————————————————————————————
-- C2 — Serialio::poll_for_interrupt / clear_interrupt_cmd
-- ———————————————————————————————————————————————————————————————————————————

/-- C2 counterexample.  The claim says that once a poll observes `'~'` and
sets the interrupted flag, every later call to `poll_for_interrupt_char`
leaves the flag `true` — "including none at all" (no arriving bytes) — until
`clear_interrupt_cmd`.  Concretely: a poll seeing the chunk `['~']` sets the
flag, but the very next poll with no pending data stores `false` into the
flag, with `clear_interrupt_cmd` never called. -/
theorem c2_interrupt_flag_not_latched :
    pollForInterrupt false true [[126]] = true ∧
    pollForInterrupt true true [] = false := by
  decide

/-- C2 amended.  `poll_for_interrupt` recomputes the flag on every call,
ignoring its previous value: after a call the flag is `true` exactly when the
connection is up and some chunk received during that call contains `'~'`
(reads are modelled as returning data until the pending input is exhausted,
so each chunk is nonempty). -/
theorem c2_interrupt_flag_reflects_last_poll (prev dtr : Bool)
    (chunks : List (List Nat)) (hne : ∀ c ∈ chunks, c ≠ []) :
    pollForInterrupt prev dtr chunks =
      (dtr && chunks.any fun c => c.contains INTERRUPT_CHAR) := by
  unfold pollForInterrupt
  cases dtr with
  | false => simp
  | true =>
    simp only [Bool.true_and, if_pos]
    induction chunks with
    | nil => simp [pollForInterruptLoop]
    | cons c rest ih =>
      have hc : c ≠ [] := hne c (List.mem_cons_self c rest)
      have hlen : c.length > 0 := List.length_pos.mpr hc
      by_cases hmem : INTERRUPT_CHAR ∈ c
      · simp [pollForInterruptLoop, hlen, hmem, List.elem_iff]
      · have := ih (fun x hx => hne x (List.mem_cons_of_mem c hx))
        simp [pollForInterruptLoop, hlen, hmem, List.elem_iff, this]

/-- C2 amended, witness: a `'~'` chunk yields `true`, a call with one plain
chunk yields `false`, whatever the previous flag value. -/
theorem c2_interrupt_flag_reflects_last_poll_witness :
    pollForInterrupt true true [[97, 126], [98]] = true ∧
    pollForInterrupt true true [[97]] = false := by
  constructor
  · rw [c2_interrupt_flag_reflects_last_poll true true [[97, 126], [98]] (by decide)]
    decide
  · rw [c2_interrupt_flag_reflects_last_poll true true [[97]] (by decide)]
    decide

-- ———————————————————————————————————————————————————————————————————————————
-- C3 — Serialio::read_line_blocking
-- ———————————————————————————————————————————————————————————————————————————

/-- A trace segment before the terminating event: no newline byte, no
disconnected poll, no read error. -/
def CleanSeg (pre : List RxEvent) : Prop :=
  (∀ b, RxEvent.byte b ∈ pre → b ≠ 10) ∧
    RxEvent.wouldBlock false ∉ pre ∧ RxEvent.readErr ∉ pre

theorem readLineLoop_ok (cap : Nat) :
    ∀ (pre : List RxEvent) (stored : List Nat) (tail : List RxEvent),
    CleanSeg pre → stored.length + (dataBytes pre).length ≤ cap →
    readLineLoop cap stored false (pre ++ RxEvent.byte 10 :: tail) =
      (.ok (stored ++ dataBytes pre), tail) := by
  intro pre
  induction pre with
  | nil => intro stored tail _ _; simp [readLineLoop, dataBytes]
  | cons e rest ih =>
    intro stored tail hclean hlen
    obtain ⟨hnl, hwb, herr⟩ := hclean
    have hrest : CleanSeg rest :=
      ⟨fun b hb => hnl b (List.mem_cons_of_mem e hb),
       fun h => hwb (List.mem_cons_of_mem _ h),
       fun h => herr (List.mem_cons_of_mem _ h)⟩
    cases e with
    | readErr => exact absurd (List.mem_cons_self _ _) herr
    | wouldBlock d =>
      cases d with
      | false => exact absurd (List.mem_cons_self _ _) hwb
      | true =>
        have : dataBytes (RxEvent.wouldBlock true :: rest) = dataBytes rest := by
          simp [dataBytes]
        rw [this] at hlen
        simpa [readLineLoop, this] using ih stored tail hrest hlen
    | byte b =>
      have hb : b ≠ 10 := hnl b (List.mem_cons_self _ _)
      have hdb : dataBytes (RxEvent.byte b :: rest) = b :: dataBytes rest := by
        simp [dataBytes]
      rw [hdb] at hlen
      have hlt : stored.length < cap := by
        simp at hlen; omega
      have := ih (stored ++ [b]) tail hrest (by simp at hlen ⊢; omega)
      simp [readLineLoop, hb, hlt, hdb, this]

theorem readLineLoop_overflow_sticky (cap : Nat) :
    ∀ (pre : List RxEvent) (stored : List Nat) (tail : List RxEvent),
    CleanSeg pre →
    readLineLoop cap stored true (pre ++ RxEvent.byte 10 :: tail) =
      (.bufferOverflow, tail) := by
  intro pre
  induction pre with
  | nil => intro stored tail _; simp [readLineLoop]
  | cons e rest ih =>
    intro stored tail hclean
    obtain ⟨hnl, hwb, herr⟩ := hclean
    have hrest : CleanSeg rest :=
      ⟨fun b hb => hnl b (List.mem_cons_of_mem e hb),
       fun h => hwb (List.mem_cons_of_mem _ h),
       fun h => herr (List.mem_cons_of_mem _ h)⟩
    cases e with
    | readErr => exact absurd (List.mem_cons_self _ _) herr
    | wouldBlock d =>
      cases d with
      | false => exact absurd (List.mem_cons_self _ _) hwb
      | true => simpa [readLineLoop] using ih stored tail hrest
    | byte b =>
      have hb : b ≠ 10 := hnl b (List.mem_cons_self _ _)
      by_cases hlt : stored.length < cap
      · simpa [readLineLoop, hb, hlt] using ih (stored ++ [b]) tail hrest
      · simpa [readLineLoop, hb, hlt] using ih stored tail hrest

theorem readLineLoop_to_overflow (cap : Nat) :
    ∀ (pre : List RxEvent) (stored : List Nat) (tail : List RxEvent),
    CleanSeg pre → stored.length ≤ cap →
    stored.length + (dataBytes pre).length > cap →
    readLineLoop cap stored false (pre ++ RxEvent.byte 10 :: tail) =
      (.bufferOverflow, tail) := by
  intro pre
  induction pre with
  | nil =>
    intro stored tail _ hinv hlen
    simp [dataBytes] at hlen
    omega
  | cons e rest ih =>
    intro stored tail hclean hinv hlen
    obtain ⟨hnl, hwb, herr⟩ := hclean
    have hrest : CleanSeg rest :=
      ⟨fun b hb => hnl b (List.mem_cons_of_mem e hb),
       fun h => hwb (List.mem_cons_of_mem _ h),
       fun h => herr (List.mem_cons_of_mem _ h)⟩
    cases e with
    | readErr => exact absurd (List.mem_cons_self _ _) herr
    | wouldBlock d =>
      cases d with
      | false => exact absurd (List.mem_cons_self _ _) hwb
      | true =>
        have hdb : dataBytes (RxEvent.wouldBlock true :: rest) = dataBytes rest := by
          simp [dataBytes]
        rw [hdb] at hlen
        simpa [readLineLoop] using ih stored tail hrest hinv hlen
    | byte b =>
      have hb : b ≠ 10 := hnl b (List.mem_cons_self _ _)
      have hdb : dataBytes (RxEvent.byte b :: rest) = b :: dataBytes rest := by
        simp [dataBytes]
      rw [hdb] at hlen
      by_cases hlt : stored.length < cap
      · have := ih (stored ++ [b]) tail hrest (by simp; omega) (by simp at hlen ⊢; omega)
        simp [readLineLoop, hb, hlt, this]
      · simpa [readLineLoop, hb, hlt] using
          readLineLoop_overflow_sticky cap rest stored tail hrest

theorem readLineLoop_disconnect (cap : Nat) :
    ∀ (pre : List RxEvent) (stored : List Nat) (overflow : Bool)
      (rest : List RxEvent),
    CleanSeg pre →
    readLineLoop cap stored overflow (pre ++ RxEvent.wouldBlock false :: rest) =
      (.invalidEndpoint, rest) := by
  intro pre
  induction pre with
  | nil => intro stored overflow rest _; simp [readLineLoop]
  | cons e pr ih =>
    intro stored overflow rest hclean
    obtain ⟨hnl, hwb, herr⟩ := hclean
    have hrest : CleanSeg pr :=
      ⟨fun b hb => hnl b (List.mem_cons_of_mem e hb),
       fun h => hwb (List.mem_cons_of_mem _ h),
       fun h => herr (List.mem_cons_of_mem _ h)⟩
    cases e with
    | readErr => exact absurd (List.mem_cons_self _ _) herr
    | wouldBlock d =>
      cases d with
      | false => exact absurd (List.mem_cons_self _ _) hwb
      | true => simpa [readLineLoop] using ih stored overflow rest hrest
    | byte b =>
      have hb : b ≠ 10 := hnl b (List.mem_cons_self _ _)
      by_cases hlt : stored.length < cap
      · simpa [readLineLoop, hb, hlt] using ih (stored ++ [b]) overflow rest hrest
      · simpa [readLineLoop, hb, hlt] using ih stored true rest hrest

/-- C3.  `read_line_blocking` over any byte stream: (1) with the connection
flag down at entry it returns `InvalidEndpoint` immediately; (2) if the flag
drops (a poll observes no data while DTR is down) before a `'\n'` byte
arrives, it returns `InvalidEndpoint`; (3) when a `'\n'` arrives after `n`
data bytes without a disconnect: if `n` exceeds the buffer length the stream
is consumed through that `'\n'` and `BufferOverflow` is returned, otherwise
`Ok` with exactly those `n` bytes stored and the `'\n'` not stored. -/
theorem c3_read_line_blocking_spec (cap : Nat) (pre rest events : List RxEvent)
    (hclean : CleanSeg pre) :
    (readLineBlocking false cap events = (.invalidEndpoint, events)) ∧
    (readLineBlocking true cap (pre ++ RxEvent.wouldBlock false :: rest) =
      (.invalidEndpoint, rest)) ∧
    ((dataBytes pre).length > cap →
      readLineBlocking true cap (pre ++ RxEvent.byte 10 :: rest) =
        (.bufferOverflow, rest)) ∧
    ((dataBytes pre).length ≤ cap →
      readLineBlocking true cap (pre ++ RxEvent.byte 10 :: rest) =
        (.ok (dataBytes pre), rest)) := by
  refine ⟨by simp [readLineBlocking], ?_, ?_, ?_⟩
  · simpa [readLineBlocking] using readLineLoop_disconnect cap pre [] false rest hclean
  · intro hgt
    simpa [readLineBlocking] using
      readLineLoop_to_overflow cap pre [] rest hclean (by simp) (by simpa using hgt)
  · intro hle
    simpa [readLineBlocking] using
      readLineLoop_ok cap pre [] rest hclean (by simpa using hle)

/-- C3 witness: a two-byte line into a 4-byte buffer is returned in full with
the trailing `'\n'` dropped; the same line into a 1-byte buffer overflows; a
disconnect observed mid-line aborts with `InvalidEndpoint`. -/
theorem c3_read_line_blocking_spec_witness :
    readLineBlocking true 4
        [RxEvent.byte 97, RxEvent.wouldBlock true, RxEvent.byte 98,
         RxEvent.byte 10, RxEvent.byte 99] =
      (.ok [97, 98], [RxEvent.byte 99]) ∧
    readLineBlocking true 1
        [RxEvent.byte 97, RxEvent.wouldBlock true, RxEvent.byte 98,
         RxEvent.byte 10, RxEvent.byte 99] =
      (.bufferOverflow, [RxEvent.byte 99]) ∧
    readLineBlocking true 4
        [RxEvent.byte 97, RxEvent.wouldBlock false, RxEvent.byte 98] =
      (.invalidEndpoint, [RxEvent.byte 98]) ∧
    readLineBlocking false 4 [RxEvent.byte 97] =
      (.invalidEndpoint, [RxEvent.byte 97]) := by
  have hclean : CleanSeg [RxEvent.byte 97, RxEvent.wouldBlock true, RxEvent.byte 98] := by
    refine ⟨?_, by decide, by decide⟩
    intro b hb
    simp at hb
    rcases hb with h | h <;> omega
  have hclean1 : CleanSeg [RxEvent.byte 97] := by
    refine ⟨?_, by decide, by decide⟩
    intro b hb
    simp at hb
    omega
  have h4 := c3_read_line_blocking_spec 4
    [RxEvent.byte 97, RxEvent.wouldBlock true, RxEvent.byte 98]
    [RxEvent.byte 99] [RxEvent.byte 97] hclean
  have h1 := c3_read_line_blocking_spec 1
    [RxEvent.byte 97, RxEvent.wouldBlock true, RxEvent.byte 98]
    [RxEvent.byte 99] [RxEvent.byte 97] hclean
  have hd := c3_read_line_blocking_spec 4 [RxEvent.byte 97]
    [RxEvent.byte 98] [RxEvent.byte 97] hclean1
  refine ⟨?_, ?_, ?_, ?_⟩
  · simpa [dataBytes] using h4.2.2.2 (by simp [dataBytes])
  · simpa [dataBytes] using h1.2.2.1 (by simp [dataBytes])
  · simpa using hd.2.1
  · simpa using h4.1

-- ———————————————————————————————————————————————————————————————————————————
-- C9 — Tasklet
-- ———————————————————————————————————————————————————————————————————————————

theorem tasklet_isReady_keeps_config (t : Tasklet) (b : Bool) :
    ((t.isReady b).2).interval = t.interval ∧
      ((t.isReady b).2).initialRuns = t.initialRuns := by
  unfold Tasklet.isReady
  split
  · simp
  · split
    · simp
    · split <;> simp

theorem tasklet_runPolls_keeps_config :
    ∀ (bs : List Bool) (t : Tasklet),
    ((Tasklet.runPolls t bs).2).interval = t.interval ∧
      ((Tasklet.runPolls t bs).2).initialRuns = t.initialRuns := by
  intro bs
  induction bs with
  | nil => intro t; simp [Tasklet.runPolls]
  | cons b bs ih =>
    intro t
    have h1 := tasklet_isReady_keeps_config t b
    have h2 := ih (t.isReady b).2
    simp only [Tasklet.runPolls]
    exact ⟨h2.1.trans h1.1, h2.2.trans h1.2⟩

theorem tasklet_run_inv (n : Nat) (hn : 0 < n) :
    ∀ (bs : List Bool) (t : Tasklet) (k : Nat), k ≤ n →
    t.initialRuns = n → t.remainingRuns = n - k → t.isFirstPoll = false →
    (Tasklet.runPolls t bs).1 = min (n - k) (bs.count true) ∧
    ((Tasklet.runPolls t bs).2).remainingRuns = n - (k + (Tasklet.runPolls t bs).1) ∧
    ((Tasklet.runPolls t bs).2).isFirstPoll = false := by
  have hn0 : n ≠ 0 := by omega
  intro bs
  induction bs with
  | nil =>
    intro t k hk hinit hrem hfp
    simp [Tasklet.runPolls, hrem, hfp]
  | cons b bs ih =>
    intro t k hk hinit hrem hfp
    by_cases hkn : k = n
    · have hr0 : t.remainingRuns = 0 := by omega
      have hstep : t.isReady b = (false, t) := by
        unfold Tasklet.isReady
        simp [hfp, hinit, hr0, hn0]
      have hrec := ih t k hk hinit hrem hfp
      simp only [Tasklet.runPolls, hstep]
      have hm : (Tasklet.runPolls t bs).1 = 0 := by
        rw [hrec.1]; omega
      refine ⟨by simp [hm, hkn], ?_, hrec.2.2⟩
      rw [hrec.2.1]
      simp [hm]
    · have hklt : k < n := lt_of_le_of_ne hk hkn
      have hrpos : t.remainingRuns ≠ 0 := by omega
      cases b with
      | true =>
        have hstep : t.isReady true =
            (true, { t with remainingRuns := t.remainingRuns - 1 }) := by
          unfold Tasklet.isReady
          simp [hfp, hinit, hrpos, hn0]
        have hrec := ih { t with remainingRuns := t.remainingRuns - 1 } (k + 1)
          (by omega) (by simp [hinit]) (by simp [hrem]; omega) (by simp [hfp])
        simp only [Tasklet.runPolls, hstep]
        refine ⟨?_, ?_, hrec.2.2⟩
        · rw [hrec.1]
          simp [List.count_cons]
          omega
        · rw [hrec.2.1, hrec.1]
          simp [List.count_cons]
          omega
      | false =>
        have hstep : t.isReady false = (false, t) := by
          unfold Tasklet.isReady
          simp [hfp, hinit, hrpos, hn0]
        have hrec := ih t k hk hinit hrem hfp
        simp only [Tasklet.runPolls, hstep]
        refine ⟨?_, ?_, hrec.2.2⟩
        · rw [hrec.1]; simp [List.count_cons]
        · rw [hrec.2.1, hrec.1]; simp [List.count_cons]

/-- C9.  For a `Tasklet` built with interval `T` and run count `n`, polled
with an arbitrary elapsed-oracle sequence: (1) the first `is_ready` poll
always returns `true`; (2) for `n > 0` the number of `true` polls over any
sequence is `min n (1 + #elapsed later polls)` — exactly `n` once enough
periods elapse, and never more; (3) for `n > 0` the task is exhausted
precisely when the `n` ready polls have been delivered; (4) on an exhausted
(and armed) task every further `is_ready` returns `false` and leaves the
state unchanged; (5) `reset` returns any polled state to the freshly built
one; (6) for `n = 0` the task is never exhausted. -/
theorem c9_tasklet_state_machine (T n : Nat) :
    (∀ b, ((Tasklet.new T n).isReady b).1 = true) ∧
    (0 < n → ∀ (b : Bool) (bs : List Bool),
      (Tasklet.runPolls (Tasklet.new T n) (b :: bs)).1 = min n (1 + bs.count true)) ∧
    (0 < n → ∀ (b : Bool) (bs : List Bool),
      (((Tasklet.runPolls (Tasklet.new T n) (b :: bs)).2).isExhausted = true ↔
        n ≤ 1 + bs.count true)) ∧
    (∀ (t : Tasklet) (b : Bool), t.isExhausted = true → t.isFirstPoll = false →
      t.isReady b = (false, t)) ∧
    (∀ bs : List Bool,
      ((Tasklet.runPolls (Tasklet.new T n) bs).2).reset = Tasklet.new T n) ∧
    (n = 0 → ∀ bs : List Bool,
      ((Tasklet.runPolls (Tasklet.new T 0) bs).2).isExhausted = false) := by
  have hfirst : ∀ b, (Tasklet.new T n).isReady b =
      (true, { interval := T * 1000, initialRuns := n,
               remainingRuns := n - 1, isFirstPoll := false }) := by
    intro b
    unfold Tasklet.isReady Tasklet.new
    rcases Nat.eq_zero_or_pos n with h0 | hpos
    · simp [h0]
    · have : n ≠ 0 := by omega
      simp [this]
  refine ⟨fun b => by rw [hfirst b], ?_, ?_, ?_, ?_, ?_⟩
  · intro hn b bs
    have hrun := tasklet_run_inv n hn bs
      { interval := T * 1000, initialRuns := n,
        remainingRuns := n - 1, isFirstPoll := false } 1
      (by omega) rfl rfl rfl
    simp only [Tasklet.runPolls, hfirst b]
    rw [hrun.1]
    simp
    omega
  · intro hn b bs
    have hn0 : n ≠ 0 := by omega
    have hrun := tasklet_run_inv n hn bs
      { interval := T * 1000, initialRuns := n,
        remainingRuns := n - 1, isFirstPoll := false } 1
      (by omega) rfl rfl rfl
    have hinit := (tasklet_runPolls_keeps_config bs
      { interval := T * 1000, initialRuns := n,
        remainingRuns := n - 1, isFirstPoll := false }).2
    simp only [Tasklet.runPolls, hfirst b]
    unfold Tasklet.isExhausted
    rw [hrun.2.1, hrun.1]
    simp only [hinit]
    simp [hn0]
    omega
  · intro t b hex hfp
    unfold Tasklet.isExhausted at hex
    unfold Tasklet.isReady
    simp only [Bool.and_eq_true, decide_eq_true_eq, ne_eq] at hex
    simp [hfp, hex.1, hex.2]
  · intro bs
    have hcfg := tasklet_runPolls_keeps_config bs (Tasklet.new T n)
    simp only [Tasklet.new] at hcfg ⊢
    unfold Tasklet.reset
    ext
    · exact hcfg.1
    · exact hcfg.2
    · simp [hcfg.2]
    · rfl
  · intro h0 bs
    have hcfg := tasklet_runPolls_keeps_config bs (Tasklet.new T 0)
    unfold Tasklet.isExhausted
    simp only [Tasklet.new] at hcfg ⊢
    simp [hcfg.2]

/-- C9 witness: a three-run tasklet at 100 ms answers `true` on the first
poll, is ready on exactly three polls in total, is then exhausted, and
`reset` restores the fresh task. -/
theorem c9_tasklet_state_machine_witness :
    (Tasklet.runPolls (Tasklet.new 100 3) [true, false, true, true, true, true]).1 = 3 ∧
    ((Tasklet.runPolls (Tasklet.new 100 3) [true, false, true, true, true, true]).2).isExhausted
      = true ∧
    ((Tasklet.runPolls (Tasklet.new 100 3) [true, false, true, true, true, true]).2).reset
      = Tasklet.new 100 3 := by
  have h := c9_tasklet_state_machine 100 3
  refine ⟨?_, ?_, h.2.2.2.2.1 [true, false, true, true, true, true]⟩
  · rw [h.2.1 (by omega) true [false, true, true, true, true]]
    decide
  · rw [(h.2.2.1 (by omega) true [false, true, true, true, true])]
    decide

-- ———————————————————————————————————————————————————————————————————————————
-- C1 — Config::take_pin / Config::take_pin_by_alias
-- ———————————————————————————————————————————————————————————————————————————

theorem config_new_untaken (defs : List PinDefRow) (cfg : Config)
    (hnew : Config.new defs = some cfg) : ∀ p ∈ cfg.pins, p.taken = false := by
  unfold Config.new at hnew
  split at hnew
  · split at hnew
    · injection hnew with h
      subst h
      intro p hp
      unfold Config.buildPins at hp
      simp only [List.mem_map] at hp
      obtain ⟨d, -, rfl⟩ := hp
      rfl
    · exact absurd hnew (by simp)
  · exact absurd hnew (by simp)

theorem buildPins_ids (ds : List PinDefRow) :
    (Config.buildPins ds).map (fun p => p.id) =
      ds.filterMap fun d => match d.id with | .Gpio i => some i | .NA => none := by
  induction ds with
  | nil => rfl
  | cons d ds ih =>
    unfold Config.buildPins at ih ⊢
    simp only [List.map_map, ne_eq, decide_not] at ih
    cases hid : d.id with
    | Gpio i =>
      simp [List.filter_cons, List.filterMap_cons, hid, ih, List.map_map,
        ne_eq, decide_not]
    | NA =>
      simp [List.filter_cons, List.filterMap_cons, hid, ih, List.map_map,
        ne_eq, decide_not]

theorem config_new_ids_nodup (defs : List PinDefRow) (cfg : Config)
    (hnew : Config.new defs = some cfg) : (cfg.pins.map (fun p => p.id)).Nodup := by
  unfold Config.new at hnew
  split at hnew
  · split at hnew
    · injection hnew with h
      subst h
      rename_i hpre _
      unfold Config.precheckOk at hpre
      simp only [Bool.and_eq_true] at hpre
      rw [buildPins_ids defs]
      simpa using hpre.2
    · exact absurd hnew (by simp)
  · exact absurd hnew (by simp)

theorem find_id_of_mem (ps : List PinDef)
    (hnd : (ps.map (fun p => p.id)).Nodup) (p : PinDef) (hp : p ∈ ps) :
    ps.find? (fun q => q.id = p.id) = some p := by
  induction ps with
  | nil => cases hp
  | cons h tl ih =>
    simp only [List.map_cons, List.nodup_cons] at hnd
    rcases List.mem_cons.mp hp with rfl | htl
    · exact List.find?_cons_of_pos _ (by simp)
    · have hne : h.id ≠ p.id := by
        intro he
        exact hnd.1 (he ▸ List.mem_map_of_mem (fun q => q.id) htl)
      rw [List.find?_cons_of_neg _ (by simpa using hne)]
      exact ih hnd.2 htl

theorem find_id_markTaken_self (ps : List PinDef) (i : Nat) :
    (Config.markTaken ps i).find? (fun q => q.id = i) =
      (ps.find? (fun q => q.id = i)).map (fun p => { p with taken := true }) := by
  induction ps with
  | nil => rfl
  | cons h tl ih =>
    simp only [Config.markTaken]
    by_cases hh : h.id = i
    · rw [if_pos hh, List.find?_cons_of_pos _ (by simp [hh]),
        List.find?_cons_of_pos _ (by simp [hh])]
      rfl
    · rw [if_neg hh, List.find?_cons_of_neg _ (by simp [hh]),
        List.find?_cons_of_neg _ (by simp [hh])]
      exact ih

theorem find_id_markTaken_other (ps : List PinDef) (j i : Nat) (hne : i ≠ j) :
    (Config.markTaken ps j).find? (fun q => q.id = i) =
      ps.find? (fun q => q.id = i) := by
  induction ps with
  | nil => rfl
  | cons h tl ih =>
    simp only [Config.markTaken]
    by_cases hh : h.id = j
    · have hni : ¬ (h.id = i) := by rw [hh]; exact fun he => hne he.symm
      rw [if_pos hh, List.find?_cons_of_neg _ (by simp [hni]),
        List.find?_cons_of_neg _ (by simp [hni])]
    · rw [if_neg hh]
      by_cases hi : h.id = i
      · rw [List.find?_cons_of_pos _ (by simp [hi]),
          List.find?_cons_of_pos _ (by simp [hi])]
      · rw [List.find?_cons_of_neg _ (by simp [hi]),
          List.find?_cons_of_neg _ (by simp [hi])]
        exact ih

theorem find_alias_markTaken (ps : List PinDef) (j : Nat) (a : List Char) :
    ((Config.markTaken ps j).find? (fun p => eqIgnoreAsciiCase p.alias_ a)).map
        (fun p => p.id) =
      (ps.find? (fun p => eqIgnoreAsciiCase p.alias_ a)).map (fun p => p.id) := by
  induction ps with
  | nil => rfl
  | cons h tl ih =>
    simp only [Config.markTaken]
    by_cases hh : h.id = j
    · by_cases ha : eqIgnoreAsciiCase h.alias_ a
      · rw [if_pos hh, List.find?_cons_of_pos _ (by simpa using ha),
          List.find?_cons_of_pos _ (by simpa using ha)]
        rfl
      · rw [if_pos hh, List.find?_cons_of_neg _ (by simpa using ha),
          List.find?_cons_of_neg _ (by simpa using ha)]
    · by_cases ha : eqIgnoreAsciiCase h.alias_ a
      · rw [if_neg hh, List.find?_cons_of_pos _ (by simpa using ha),
          List.find?_cons_of_pos _ (by simpa using ha)]
      · rw [if_neg hh, List.find?_cons_of_neg _ (by simpa using ha),
          List.find?_cons_of_neg _ (by simpa using ha)]
        exact ih


theorem take_pin_preserves_taken (cfg : Config) (j i : Nat)
    (h : cfg.pinTaken i = true) : ((cfg.take_pin j).2).pinTaken i = true := by
  unfold Config.take_pin
  cases hf : cfg.pins.find? (fun q => q.id = j) with
  | none => simpa only [hf] using h
  | some p =>
    simp only [hf]
    by_cases htk : p.taken = true
    · simpa only [if_pos htk] using h
    · simp only [if_neg htk]
      unfold Config.pinTaken at h ⊢
      by_cases hij : i = j
      · subst hij
        rw [hf] at h
        exact absurd h htk
      · simp only []
        rw [find_id_markTaken_other cfg.pins j i hij]
        exact h

theorem take_pin_of_taken (cfg : Config) (i : Nat)
    (h : cfg.pinTaken i = true) : cfg.take_pin i = (none, cfg) := by
  unfold Config.pinTaken at h
  unfold Config.take_pin
  cases hf : cfg.pins.find? (fun q => q.id = i) with
  | none => simp [hf] at h
  | some p =>
    simp only [hf] at h
    simp [hf, h]

theorem step_preserves_taken (cfg : Config) (op : ConfigOp) (i : Nat)
    (h : cfg.pinTaken i = true) : (op.step cfg).pinTaken i = true := by
  cases op with
  | take j => exact take_pin_preserves_taken cfg j i h
  | takeAlias a =>
    unfold ConfigOp.step Config.take_pin_by_alias
    cases hf : cfg.get_pin_def_by_alias a with
    | error e => simp only [hf]; simpa using h
    | ok p =>
      simp only [hf]
      have hpres := take_pin_preserves_taken cfg p.id i h
      cases ht : cfg.take_pin p.id with
      | mk r cfg1 =>
        rw [ht] at hpres
        cases r <;> simpa using hpres

theorem runConfigOps_preserves_taken (ops : List ConfigOp) :
    ∀ (cfg : Config) (i : Nat), cfg.pinTaken i = true →
      (runConfigOps cfg ops).pinTaken i = true := by
  induction ops with
  | nil => intro cfg i h; exact h
  | cons op ops ih =>
    intro cfg i h
    exact ih (op.step cfg) i (step_preserves_taken cfg op i h)

theorem take_pin_preserves_aliasId (cfg : Config) (j : Nat) (a : List Char) :
    Config.aliasId ((cfg.take_pin j).2) a = Config.aliasId cfg a := by
  unfold Config.take_pin
  cases hf : cfg.pins.find? (fun q => q.id = j) with
  | none => simp [hf]
  | some p =>
    simp only [hf]
    by_cases htk : p.taken = true
    · simp only [if_pos htk]
    · simp only [if_neg htk]
      unfold Config.aliasId
      exact find_alias_markTaken cfg.pins j a

theorem step_preserves_aliasId (cfg : Config) (op : ConfigOp) (a : List Char) :
    Config.aliasId (op.step cfg) a = Config.aliasId cfg a := by
  cases op with
  | take j => exact take_pin_preserves_aliasId cfg j a
  | takeAlias b =>
    unfold ConfigOp.step Config.take_pin_by_alias
    cases hf : cfg.get_pin_def_by_alias b with
    | error e => simp [hf]
    | ok p =>
      simp only [hf]
      have hpres := take_pin_preserves_aliasId cfg p.id a
      cases ht : cfg.take_pin p.id with
      | mk r cfg1 =>
        rw [ht] at hpres
        cases r <;> simpa using hpres

theorem runConfigOps_preserves_aliasId (ops : List ConfigOp) :
    ∀ (cfg : Config) (a : List Char),
      Config.aliasId (runConfigOps cfg ops) a = Config.aliasId cfg a := by
  induction ops with
  | nil => intro cfg a; rfl
  | cons op ops ih =>
    intro cfg a
    rw [runConfigOps, ih, step_preserves_aliasId]

/-- C1.  For every pin of a successfully built `Config`: its `taken` flag
starts `false`; the first `take_pin(id)` returns `Some` handle and marks it
taken; after any interleaving of further `take_pin` / `take_pin_by_alias`
operations, `take_pin(id)` returns `None` and (whenever the pin's alias
resolves to that id) `take_pin_by_alias` returns `PinAlreadyConfigured`; and
no sequence of operations ever clears a set `taken` flag. -/
theorem c1_take_pin_exclusive (defs : List PinDefRow) (cfg : Config)
    (p : PinDef) (hnew : Config.new defs = some cfg) (hp : p ∈ cfg.pins) :
    p.taken = false ∧
    (cfg.take_pin p.id).1 = some p.id ∧
    ((cfg.take_pin p.id).2).pinTaken p.id = true ∧
    (∀ ops : List ConfigOp,
      (runConfigOps (cfg.take_pin p.id).2 ops).take_pin p.id =
        (none, runConfigOps (cfg.take_pin p.id).2 ops) ∧
      (Config.aliasId cfg p.alias_ = some p.id →
        (runConfigOps (cfg.take_pin p.id).2 ops).take_pin_by_alias p.alias_ =
          (.error .PinAlreadyConfigured,
            runConfigOps (cfg.take_pin p.id).2 ops))) ∧
    (∀ (c : Config) (i : Nat) (ops : List ConfigOp),
      c.pinTaken i = true → (runConfigOps c ops).pinTaken i = true) := by
  have huntaken := config_new_untaken defs cfg hnew p hp
  have hnd := config_new_ids_nodup defs cfg hnew
  have hfind : cfg.pins.find? (fun q => q.id = p.id) = some p :=
    find_id_of_mem cfg.pins hnd p hp
  have htake : cfg.take_pin p.id = (some p.id, ⟨Config.markTaken cfg.pins p.id⟩) := by
    unfold Config.take_pin
    simp [hfind, huntaken]
  have htaken1 : ((cfg.take_pin p.id).2).pinTaken p.id = true := by
    rw [htake]
    unfold Config.pinTaken
    simp only []
    rw [find_id_markTaken_self cfg.pins p.id, hfind]
    rfl
  refine ⟨huntaken, by rw [htake], htaken1, ?_, ?_⟩
  · intro ops
    have htaken2 : (runConfigOps (cfg.take_pin p.id).2 ops).pinTaken p.id = true :=
      runConfigOps_preserves_taken ops _ p.id htaken1
    refine ⟨take_pin_of_taken _ p.id htaken2, ?_⟩
    intro hal
    have hal1 : Config.aliasId (cfg.take_pin p.id).2 p.alias_ = some p.id := by
      rw [take_pin_preserves_aliasId]; exact hal
    have hal2 : Config.aliasId (runConfigOps (cfg.take_pin p.id).2 ops) p.alias_ =
        some p.id := by
      rw [runConfigOps_preserves_aliasId]; exact hal1
    set cfg2 := runConfigOps (cfg.take_pin p.id).2 ops with hc2
    unfold Config.aliasId at hal2
    unfold Config.take_pin_by_alias Config.get_pin_def_by_alias
    cases hf2 : cfg2.pins.find? (fun q => eqIgnoreAsciiCase q.alias_ p.alias_) with
    | none => rw [hf2] at hal2; cases hal2
    | some q =>
      rw [hf2] at hal2
      have hq : q.id = p.id := by simpa using hal2
      simp [hq, take_pin_of_taken cfg2 p.id htaken2]
  · intro c i ops h
    exact runConfigOps_preserves_taken ops c i h

/-- C1 witness: on the compiled-in pin table, the LED pin (gpio 25) is free
after the build, its first claim succeeds, and after further operations (a
claim of gpio 26 and a claim of alias "IN_A") both re-claim paths fail. -/
theorem c1_take_pin_exclusive_witness :
    ∃ cfg : Config, Config.new PIN_DEFINITION = some cfg ∧
      (⟨"LED".toList, 25, Group.Outputs, false⟩ : PinDef) ∈ cfg.pins ∧
      (cfg.take_pin 25).1 = some 25 ∧
      ((cfg.take_pin 25).2).pinTaken 25 = true ∧
      ((runConfigOps (cfg.take_pin 25).2
          [ConfigOp.take 26, ConfigOp.takeAlias ("IN_A".toList)]).take_pin 25 =
        (none, runConfigOps (cfg.take_pin 25).2
          [ConfigOp.take 26, ConfigOp.takeAlias ("IN_A".toList)])) ∧
      ((runConfigOps (cfg.take_pin 25).2
          [ConfigOp.take 26, ConfigOp.takeAlias ("IN_A".toList)]).take_pin_by_alias
            ("LED".toList) =
        (.error .PinAlreadyConfigured, runConfigOps (cfg.take_pin 25).2
          [ConfigOp.take 26, ConfigOp.takeAlias ("IN_A".toList)])) := by
  have hnew : Config.new PIN_DEFINITION =
      some ((Config.new PIN_DEFINITION).get (by decide)) := (Option.some_get _).symm
  have hp : (⟨"LED".toList, 25, Group.Outputs, false⟩ : PinDef) ∈
      ((Config.new PIN_DEFINITION).get (by decide)).pins := by decide
  have h := c1_take_pin_exclusive PIN_DEFINITION _ _ hnew hp
  exact ⟨(Config.new PIN_DEFINITION).get (by decide), hnew, hp, h.2.1, h.2.2.1,
    (h.2.2.2.1 [ConfigOp.take 26, ConfigOp.takeAlias ("IN_A".toList)]).1,
    (h.2.2.2.1 [ConfigOp.take 26, ConfigOp.takeAlias ("IN_A".toList)]).2 (by decide)⟩

-- ———————————————————————————————————————————————————————————————————————————
-- Tokenizer plumbing lemmas (shared by C4 – C7)
-- ———————————————————————————————————————————————————————————————————————————

theorem stage1Aux_append (cap : Nat) :
    ∀ (xs ys : List Char) (q : Bool) (acc : List Char),
    stage1Aux cap q acc (xs ++ ys) =
      match stage1Aux cap q acc xs with
      | some (buf, q2) => stage1Aux cap q2 buf ys
      | none => none := by
  intro xs
  induction xs with
  | nil => intro ys q acc; rfl
  | cons c cs ih =>
    intro ys q acc
    by_cases hc : c = '"'
    · simpa [stage1Aux, hc] using ih ys (!q) acc
    · by_cases hlen : acc.length < cap
      · simpa [stage1Aux, hc, hlen] using
          ih ys q (acc ++ [if c = ' ' ∧ q then sepChar else toAsciiLowercase c])
      · simp [stage1Aux, hc, hlen]

theorem stage1Aux_noQuote (cap : Nat) :
    ∀ (input : List Char) (acc : List Char), '"' ∉ input →
    acc.length + input.length ≤ cap →
    stage1Aux cap false acc input =
      some (acc ++ input.map toAsciiLowercase, false) := by
  intro input
  induction input with
  | nil => intro acc _ _; simp [stage1Aux]
  | cons c cs ih =>
    intro acc hq hlen
    have hc : c ≠ '"' := fun h => hq (h ▸ List.mem_cons_self c cs)
    have hcs : '"' ∉ cs := fun h => hq (List.mem_cons_of_mem c h)
    have hlt : acc.length < cap := by simp at hlen; omega
    have := ih (acc ++ [toAsciiLowercase c]) hcs (by simp at hlen ⊢; omega)
    simp [stage1Aux, hc, hlt, this]

theorem stage1Aux_inQuote (cap : Nat) :
    ∀ (v : List Char) (acc : List Char),
    (∀ c ∈ v, c ≠ '"' ∧ isAsciiUppercase c = false) →
    acc.length + v.length ≤ cap →
    stage1Aux cap true acc (v ++ ['"']) =
      some (acc ++ v.map quoteMap, false) := by
  intro v
  induction v with
  | nil => intro acc _ _; simp [stage1Aux]
  | cons c cs ih =>
    intro acc hv hlen
    have hc := hv c (List.mem_cons_self c cs)
    have hlow : toAsciiLowercase c = c := by
      unfold toAsciiLowercase
      rw [hc.2]
      simp
    have hlt : acc.length < cap := by simp at hlen; omega
    have := ih (acc ++ [quoteMap c])
      (fun x hx => hv x (List.mem_cons_of_mem c hx)) (by simp at hlen ⊢; omega)
    by_cases hsp : c = ' '
    · rw [show quoteMap c = sepChar by simp [quoteMap, hsp]] at this
      simp [stage1Aux, hc.1, hlt, hsp, this, quoteMap]
    · rw [show quoteMap c = c by simp [quoteMap, hsp]] at this
      simp [stage1Aux, hc.1, hlt, hsp, hlow, this, quoteMap]

theorem stage1Aux_parity (cap : Nat) :
    ∀ (input : List Char) (q : Bool) (acc buf : List Char) (b : Bool),
    stage1Aux cap q acc input = some (buf, b) →
    b = (q != decide (input.count '"' % 2 = 1)) := by
  intro input
  induction input with
  | nil =>
    intro q acc buf b h
    simp [stage1Aux] at h
    simp [h.2]
  | cons c cs ih =>
    intro q acc buf b h
    by_cases hc : c = '"'
    · subst hc
      simp only [stage1Aux, if_pos rfl] at h
      have := ih (!q) acc buf b h
      rw [this]
      rcases Nat.mod_two_eq_zero_or_one (cs.count '"') with hp | hp <;>
        simp [List.count_cons, Nat.add_mod, hp]
    · rw [stage1Aux] at h
      simp only [if_neg hc] at h
      by_cases hlt : acc.length < cap
      · rw [if_pos hlt] at h
        have := ih q _ buf b h
        rw [this]
        have : cs.count '"' = (c :: cs).count '"' := by
          simp [List.count_cons, hc]
        rw [this]
      · rw [if_neg hlt] at h
        cases h

theorem stage1Aux_isSome (cap : Nat) :
    ∀ (input : List Char) (q : Bool) (acc : List Char),
    acc.length + (input.filter (fun c => c ≠ '"')).length ≤ cap →
    (stage1Aux cap q acc input).isSome := by
  intro input
  induction input with
  | nil => intro q acc _; simp [stage1Aux]
  | cons c cs ih =>
    intro q acc hlen
    by_cases hc : c = '"'
    · rw [stage1Aux, if_pos hc]
      apply ih
      simpa [List.filter_cons, hc] using hlen
    · have hlt : acc.length < cap := by
        simp [List.filter_cons, hc] at hlen
        omega
      rw [stage1Aux]
      simp only [if_neg hc, if_pos hlt]
      apply ih
      simp [List.filter_cons, hc] at hlen ⊢
      omega

theorem splitWsAux_extend :
    ∀ (w rest cur : List Char), (∀ c ∈ w, isAsciiWhitespace c = false) →
    splitWsAux cur (w ++ rest) = splitWsAux (cur ++ w) rest := by
  intro w
  induction w with
  | nil => intro rest cur _; simp
  | cons c cs ih =>
    intro rest cur hw
    have hc : isAsciiWhitespace c = false := hw c (List.mem_cons_self c cs)
    rw [List.cons_append, splitWsAux]
    simp only [hc]
    rw [ih rest (cur ++ [c]) (fun x hx => hw x (List.mem_cons_of_mem c hx))]
    simp

theorem splitWsAux_ne_nil :
    ∀ (l cur w : List Char), w ∈ splitWsAux cur l → w ≠ [] := by
  intro l
  induction l with
  | nil =>
    intro cur w hw
    rw [splitWsAux] at hw
    by_cases hc : cur = []
    · simp [hc] at hw
    · simp [hc] at hw
      simpa [hw] using hc
  | cons c cs ih =>
    intro cur w hw
    rw [splitWsAux] at hw
    by_cases hws : isAsciiWhitespace c
    · simp only [hws, if_pos rfl] at hw
      by_cases hc : cur = []
      · simp only [hc, if_pos rfl] at hw
        exact ih [] w hw
      · simp only [if_neg hc] at hw
        rcases List.mem_cons.mp hw with rfl | hw2
        · exact hc
        · exact ih [] w hw2
    · simp only [Bool.not_eq_true] at hws
      simp only [hws] at hw
      exact ih (cur ++ [c]) w hw

theorem splitWs_two_tokens (w1 w2 : List Char)
    (h1 : w1 ≠ []) (hw1 : ∀ c ∈ w1, isAsciiWhitespace c = false)
    (h2 : w2 ≠ []) (hw2 : ∀ c ∈ w2, isAsciiWhitespace c = false) :
    splitWs (w1 ++ ' ' :: w2) = [w1, w2] := by
  unfold splitWs
  rw [splitWsAux_extend w1 (' ' :: w2) [] hw1]
  rw [List.nil_append, splitWsAux]
  have : isAsciiWhitespace ' ' = true := by decide
  simp only [this, if_pos rfl, if_neg h1]
  have hext := splitWsAux_extend w2 [] [] hw2
  rw [List.append_nil] at hext
  rw [hext, List.nil_append, splitWsAux, if_neg h2]
  simp

theorem splitOnCharAux_no_sep (sep : Char) :
    ∀ (l cur : List Char), sep ∉ l → splitOnCharAux sep cur l = [cur ++ l] := by
  intro l
  induction l with
  | nil => intro cur _; simp [splitOnCharAux]
  | cons c cs ih =>
    intro cur h
    have hc : c ≠ sep := fun he => h (he ▸ List.mem_cons_self c cs)
    rw [splitOnCharAux]
    simp only [if_neg hc]
    rw [ih (cur ++ [c]) (fun hx => h (List.mem_cons_of_mem c hx))]
    simp

theorem splitOnCharAux_extend (sep : Char) :
    ∀ (w rest cur : List Char), sep ∉ w →
    splitOnCharAux sep cur (w ++ rest) = splitOnCharAux sep (cur ++ w) rest := by
  intro w
  induction w with
  | nil => intro rest cur _; simp
  | cons c cs ih =>
    intro rest cur h
    have hc : c ≠ sep := fun he => h (he ▸ List.mem_cons_self c cs)
    rw [List.cons_append, splitOnCharAux]
    simp only [if_neg hc]
    rw [ih rest (cur ++ [c]) (fun hx => h (List.mem_cons_of_mem c hx))]
    simp

theorem splitFirstEq_no_eq (w : List Char) (h : '=' ∉ w) :
    splitFirstEq w = (w, none) := by
  induction w with
  | nil => rfl
  | cons c cs ih =>
    have hc : c ≠ '=' := fun he => h (he ▸ List.mem_cons_self c cs)
    rw [splitFirstEq]
    simp only [if_neg hc]
    rw [ih (fun hx => h (List.mem_cons_of_mem c hx))]

theorem splitFirstEq_split (p v : List Char) (h : '=' ∉ p) :
    splitFirstEq (p ++ '=' :: v) = (p, some v) := by
  induction p with
  | nil => simp [splitFirstEq]
  | cons c cs ih =>
    have hc : c ≠ '=' := fun he => h (he ▸ List.mem_cons_self c cs)
    rw [List.cons_append, splitFirstEq]
    simp only [if_neg hc]
    rw [ih (fun hx => h (List.mem_cons_of_mem c hx))]

-- ———————————————————————————————————————————————————————————————————————————
-- C4 — unmatched quote / dangling escape
-- ———————————————————————————————————————————————————————————————————————————

/-- C4 counterexample.  The claim says an input ending in a dangling escape
character fails with a `Parse` error and yields no partial argument, and
likewise for an unmatched quote.  Concretely: neither tokenizer treats `\`
as an escape character at all — `ParsedCommand::parse` accepts
`cmd x=abc\` and emits the backslash literally as part of the value — and
`parse_input` accepts the unmatched quote in `cmd x="abc`, producing the
argument `x = abc`. -/
theorem c4_escape_and_quote_not_rejected :
    CliParser.ParsedCommand.parse ("cmd x=abc\\".toList) =
      .ok ⟨"cmd".toList, [⟨['x'], "abc\\".toList⟩]⟩ ∧
    SimpleCli.parse_input ("cmd x=\"abc".toList) =
      .ok ⟨"cmd".toList, [⟨['x'], "abc".toList⟩]⟩ := by
  exact ⟨rfl, rfl⟩

/-- C4 amended.  Of the two failure modes the claim lists, only the
unmatched-quote check exists, and only in `ParsedCommand::parse`: every input
with an odd number of `"` characters (whose non-quote content fits the
192-byte stage-1 buffer) fails with `Parse("Unmatched Quotes")` and produces
no result.  There is no escape processing in either tokenizer, so a trailing
backslash is accepted as a literal, and `parse_input` accepts unmatched
quotes. -/
theorem c4_unmatched_quote_rejected (input : List Char)
    (hlen : (input.filter (fun c => c ≠ '"')).length ≤ 192)
    (hodd : input.count '"' % 2 = 1) :
    CliParser.ParsedCommand.parse input =
      .error (.Parse ("Unmatched Quotes".toList)) := by
  have hs := stage1Aux_isSome 192 input false [] (by simpa using hlen)
  obtain ⟨r, hbuf⟩ := Option.isSome_iff_exists.mp hs
  obtain ⟨buf, b⟩ := r
  have hb := stage1Aux_parity 192 input false [] buf b hbuf
  have hb2 : b = true := by rw [hb]; simp [hodd]
  subst hb2
  unfold CliParser.ParsedCommand.parse
  simp only [hbuf]
  simp

/-- C4 amended, witness. -/
theorem c4_unmatched_quote_rejected_witness :
    CliParser.ParsedCommand.parse ("cmd x=\"abc".toList) =
      .error (.Parse ("Unmatched Quotes".toList)) :=
  c4_unmatched_quote_rejected ("cmd x=\"abc".toList) (by decide) (by decide)

-- ———————————————————————————————————————————————————————————————————————————
-- C5 — "=" spacing
-- ———————————————————————————————————————————————————————————————————————————

/-- C5 counterexample.  The claim says a token that is exactly `=`, starts
with `=`, or ends with `=` fails with a `Parse` ("= spacing") error and
yields no argument.  Concretely: `ParsedCommand::parse` accepts the
token `x=` (ends with `=`) and produces the argument `x` with an empty
value; `parse_input` accepts `=5` and produces an argument with an empty
parameter name, and silently skips a lone `=` instead of failing. -/
theorem c5_trailing_eq_accepted :
    CliParser.ParsedCommand.parse ("cmd x=".toList) =
      .ok ⟨"cmd".toList, [⟨['x'], []⟩]⟩ ∧
    SimpleCli.parse_input ("cmd =5".toList) =
      .ok ⟨"cmd".toList, [⟨[], ['5']⟩]⟩ ∧
    SimpleCli.parse_input ("cmd =".toList) = .ok ⟨"cmd".toList, []⟩ := by
  exact ⟨rfl, rfl, rfl⟩

theorem parseArgs_offender :
    ∀ (ws : List (List Char)) (args : List CliParser.Argument),
    (∀ w ∈ ws, (splitFirstEq w).1.length ≤ 16 ∧
      (match (splitFirstEq w).2 with | none => 0 | some v => v.length) ≤ 64) →
    (∃ w ∈ ws, w = ['='] ∨ w.headD ' ' = '=') →
    ws.length + args.length ≤ 5 →
    CliParser.parseArgs ws args =
      .error (.Parse ("\"=\" delimiter spacing".toList)) := by
  intro ws
  induction ws with
  | nil => intro args _ hoff _; simp at hoff
  | cons w ws ih =>
    intro args hbound hoff hlen
    by_cases hw : w = ['='] ∨ w.headD ' ' = '='
    · rw [CliParser.parseArgs, if_pos hw]
    · have hoff2 : ∃ x ∈ ws, x = ['='] ∨ x.headD ' ' = '=' := by
        rcases hoff with ⟨x, hx, hxo⟩
        rcases List.mem_cons.mp hx with rfl | hx2
        · exact absurd hxo hw
        · exact ⟨x, hx2, hxo⟩
      have hne : ws ≠ [] := by
        rcases hoff2 with ⟨x, hx, -⟩
        exact List.ne_nil_of_mem hx
      have hlw : ws.length ≥ 1 := by
        cases ws with
        | nil => exact absurd rfl hne
        | cons a l => simp
      have hb := hbound w (List.mem_cons_self w ws)
      have h16 : ¬ ((splitFirstEq w).1.length > 16) := by omega
      have h64 : ¬ ((match (splitFirstEq w).2 with
          | none => 0 | some v => v.length) > 64) := by omega
      have h5 : ¬ (args.length ≥ 5) := by simp at hlen; omega
      rw [CliParser.parseArgs, if_neg hw]
      simp only [if_neg h16, if_neg h64, if_neg h5]
      exact ih _ (fun x hx => hbound x (List.mem_cons_of_mem w hx)) hoff2
        (by simp at hlen ⊢; omega)

/-- C5 amended.  The orphan-`=` check exists only in `ParsedCommand::parse`
and only rejects a token that is exactly `=` or starts with `=`; a token
merely ending with `=` is accepted with an empty value, and `parse_input`
performs no such check at all.  For every input without quote characters that
fits the buffers (line of at most 192 bytes, command token of at most 24
bytes, at most 6 tokens, parameter parts at most 16 bytes and value parts at
most 64 bytes), an argument token that is `=` or starts with `=` makes
`ParsedCommand::parse` fail with `Parse("\"=\" delimiter spacing")`. -/
theorem c5_orphan_eq_rejected (input : List Char)
    (hq : '"' ∉ input) (hlen : input.length ≤ 192)
    (hcmd : ((splitWs (input.map toAsciiLowercase)).headD []).length ≤ 24)
    (htok : (splitWs (input.map toAsciiLowercase)).length ≤ 6)
    (hbound : ∀ w ∈ (splitWs (input.map toAsciiLowercase)).tail,
      (splitFirstEq w).1.length ≤ 16 ∧
      (match (splitFirstEq w).2 with | none => 0 | some v => v.length) ≤ 64)
    (hoff : ∃ w ∈ (splitWs (input.map toAsciiLowercase)).tail,
      w = ['='] ∨ w.headD ' ' = '=') :
    CliParser.ParsedCommand.parse input =
      .error (.Parse ("\"=\" delimiter spacing".toList)) := by
  have hst := stage1Aux_noQuote 192 input [] hq (by simpa using hlen)
  rw [List.nil_append] at hst
  unfold CliParser.ParsedCommand.parse
  simp only [hst]
  cases htoks : splitWs (input.map toAsciiLowercase) with
  | nil => rw [htoks] at hoff; simp at hoff
  | cons cmd ws =>
    rw [htoks] at hcmd htok hbound hoff
    simp only [List.headD_cons] at hcmd
    have hc24 : ¬ (cmd.length > 24) := by omega
    have hargs := parseArgs_offender ws [] (by simpa using hbound)
      (by simpa using hoff) (by simp at htok ⊢; omega)
    simp only [htoks, if_neg (show ¬ (false = true) by simp), if_neg hc24, hargs]

/-- C5 amended, witness. -/
theorem c5_orphan_eq_rejected_witness :
    CliParser.ParsedCommand.parse ("cmd =5".toList) =
      .error (.Parse ("\"=\" delimiter spacing".toList)) :=
  c5_orphan_eq_rejected ("cmd =5".toList) (by decide) (by decide) (by decide)
    (by decide) (by decide) ⟨"=5".toList, by decide, by decide⟩

-- ———————————————————————————————————————————————————————————————————————————
-- C6 — case normalization and quoted-value round trip
-- ———————————————————————————————————————————————————————————————————————————

/-- C6 counterexample.  The claim says values are case-preserving.  In
`parse_input`, stage 1 lowercases every ASCII capital — inside quotes too —
so `cmd a="X y"` parses to the value `x y`, not the original `X y`. -/
theorem c6_quoted_value_lowercased :
    SimpleCli.parse_input ("cmd a=\"X y\"".toList) =
      .ok ⟨"cmd".toList, [⟨['a'], "x y".toList⟩]⟩ ∧
    "x y".toList ≠ "X y".toList := by
  exact ⟨rfl, by decide⟩

/-- C6 amended.  `parse_input` folds the whole line — command, parameter
names, and values, quoted or not — to lowercase; only the case-free part of
the round-trip survives: for every value without ASCII capitals (and without
quote, `=`, or separator-sentinel characters, spaces as the only whitespace,
at most 64 bytes), wrapping it in quotes and parsing yields it unchanged, and
`parse("BLINK Times=5")` lowercases the command and parameter names while
digits are unaffected. -/
theorem restoreSep_quoteMap (v : List Char) (h : ∀ c ∈ v, c ≠ sepChar) :
    restoreSep (v.map quoteMap) = v := by
  induction v with
  | nil => rfl
  | cons c cs ih =>
    have hc := h c (List.mem_cons_self c cs)
    have ihr := ih (fun x hx => h x (List.mem_cons_of_mem c hx))
    unfold restoreSep at ihr ⊢
    simp only [List.map_cons, List.map_map] at ihr ⊢
    rw [ihr]
    by_cases hsp : c = ' '
    · simp [quoteMap, hsp, sepChar]
    · simp [quoteMap, hsp, hc]

theorem c6_roundtrip_lowercase :
    (∀ v : List Char,
      (∀ c ∈ v, isAsciiUppercase c = false ∧ c ≠ '"' ∧ c ≠ '=' ∧ c ≠ sepChar ∧
        (c = ' ' ∨ isAsciiWhitespace c = false)) →
      v.length ≤ 64 →
      SimpleCli.parse_input ("cmd a=".toList ++ ('"' :: (v ++ ['"']))) =
        .ok ⟨"cmd".toList, [⟨['a'], v⟩]⟩) ∧
    SimpleCli.parse_input ("BLINK Times=5".toList) =
      .ok ⟨"blink".toList, [⟨"times".toList, ['5']⟩]⟩ := by
  constructor
  · intro v hv hlen
    -- stage 1: the literal prefix, then the quoted segment
    have hpre : stage1Aux 128 false [] ("cmd a=".toList) =
        some ("cmd a=".toList, false) := by decide
    have hquote : stage1Aux 128 false ("cmd a=".toList) ('"' :: (v ++ ['"'])) =
        stage1Aux 128 true ("cmd a=".toList) (v ++ ['"']) := by
      rw [stage1Aux]
      simp
    have hseg := stage1Aux_inQuote 128 v ("cmd a=".toList)
      (fun c hc => ⟨(hv c hc).2.1, (hv c hc).1⟩) (by simp; omega)
    have hstage : stage1Aux 128 false []
        ("cmd a=".toList ++ ('"' :: (v ++ ['"']))) =
        some ("cmd a=".toList ++ v.map quoteMap, false) := by
      rw [stage1Aux_append 128 ("cmd a=".toList) ('"' :: (v ++ ['"'])) false []]
      simp only [hpre]
      rw [hquote, hseg]
    -- whitespace split: exactly the command and one argument token
    have hw2 : ∀ c ∈ "a=".toList ++ v.map quoteMap,
        isAsciiWhitespace c = false := by
      intro c hc
      rcases List.mem_append.mp hc with hcl | hcr
      · simp at hcl
        rcases hcl with rfl | rfl
        · decide
        · decide
      · obtain ⟨c0, hc0, rfl⟩ := List.mem_map.mp hcr
        rcases (hv c0 hc0).2.2.2.2 with hsp | hws
        · rw [hsp]
          decide
        · unfold quoteMap
          by_cases hsp : c0 = ' '
          · rw [if_pos hsp]
            decide
          · rw [if_neg hsp]
            exact hws
    have hjoin : "cmd a=".toList ++ v.map quoteMap =
        "cmd".toList ++ ' ' :: ("a=".toList ++ v.map quoteMap) := rfl
    have hsplit : splitWs ("cmd a=".toList ++ v.map quoteMap) =
        ["cmd".toList, "a=".toList ++ v.map quoteMap] := by
      rw [hjoin]
      exact splitWs_two_tokens ("cmd".toList) ("a=".toList ++ v.map quoteMap)
        (by simp) (by decide) (by simp) hw2
    -- the '=' split of the argument token
    have hnoeq : '=' ∉ v.map quoteMap := by
      intro hmem
      obtain ⟨c0, hc0, he⟩ := List.mem_map.mp hmem
      unfold quoteMap at he
      by_cases hsp : c0 = ' '
      · rw [if_pos hsp] at he
        exact absurd he (by decide)
      · rw [if_neg hsp] at he
        exact (hv c0 hc0).2.2.1 he
    have hsplit2 : splitOnChar '=' ('a' :: '=' :: v.map quoteMap) =
        [['a'], v.map quoteMap] := by
      show splitOnCharAux '=' [] ('a' :: '=' :: v.map quoteMap) = _
      rw [splitOnCharAux]
      simp only [if_neg (show ¬ ('a' = '=') by decide)]
      rw [splitOnCharAux]
      simp only [if_pos rfl]
      rw [splitOnCharAux_no_sep '=' (v.map quoteMap) [] hnoeq]
      simp
    -- assemble
    unfold SimpleCli.parse_input
    simp only [hstage]
    simp only [hsplit, List.headD_cons, List.tail_cons]
    rw [if_neg (by decide)]
    simp [SimpleCli.parseInputArgs, hsplit2,
      restoreSep_quoteMap v (fun c hc => (hv c hc).2.2.2.1),
      show ¬(v.length > 64) from by omega]
  · exact rfl

/-- C6 amended, witness: the quoted space-containing value `x y` round-trips
unchanged. -/
theorem c6_roundtrip_lowercase_witness :
    SimpleCli.parse_input ("cmd a=".toList ++ ('"' :: ("x y".toList ++ ['"']))) =
      .ok ⟨"cmd".toList, [⟨['a'], "x y".toList⟩]⟩ :=
  c6_roundtrip_lowercase.1 ("x y".toList) (by decide) (by decide)

-- ———————————————————————————————————————————————————————————————————————————
-- C7 — TooManyArgs / ArgTooLong
-- ———————————————————————————————————————————————————————————————————————————

/-- C7 counterexample.  The claim says exceeding the five-argument capacity
fails with `TooManyArgs` and an over-length parameter or value fails with
`ArgTooLong` — "these specific error kinds, not some other error".
Concretely, `parse_input` reports these conditions as `BufferWrite` and
`ParseBuffer` (its error enum has no `TooManyArgs`/`ArgTooLong` variant at
all), and `ParsedCommand::parse` reports all of them as `ParseBuffer` even
though its error enum does declare the two variants. -/
theorem c7_error_kinds_differ :
    SimpleCli.parse_input ("cmd a b c d e f".toList) = .error .BufferWrite ∧
    SimpleCli.parse_input ("cmd abcdefghijklmnopq".toList) =
      .error .ParseBuffer ∧
    SimpleCli.parse_input ("cmd x=".toList ++ List.replicate 65 'v') =
      .error .ParseBuffer ∧
    CliParser.ParsedCommand.parse ("cmd a b c d e f".toList) =
      .error .ParseBuffer ∧
    CliParser.ParsedCommand.parse ("cmd abcdefghijklmnopq".toList) =
      .error .ParseBuffer := by
  exact ⟨rfl, rfl, rfl, rfl, rfl⟩

theorem parseInputArgs_flag_overflow :
    ∀ (ws : List (List Char)) (args : List SimpleCli.Arguments),
    (∀ w ∈ ws, w ≠ [] ∧ '=' ∉ w ∧ w.length ≤ 16) →
    ws.length + args.length > 5 → args.length ≤ 5 →
    SimpleCli.parseInputArgs ws args = .error .BufferWrite := by
  intro ws
  induction ws with
  | nil => intro args _ hgt hle; simp at hgt; omega
  | cons w ws ih =>
    intro args hws hgt hle
    have hw := hws w (List.mem_cons_self w ws)
    have hne : ¬ (w = [] ∨ w = ['=']) := by
      rintro (rfl | rfl)
      · exact hw.1 rfl
      · exact hw.2.1 (List.mem_singleton_self '=')
    have hsp : splitOnChar '=' w = [w] := by
      unfold splitOnChar
      rw [splitOnCharAux_no_sep '=' w [] hw.2.1]
      simp
    rw [SimpleCli.parseInputArgs, if_neg hne]
    simp only [hsp, List.take_succ_cons, List.take_nil, List.headD_cons]
    rw [if_pos (by simp)]
    rw [if_neg (show ¬ (w.length > 16) by omega)]
    by_cases h5 : args.length ≥ 5
    · rw [if_pos h5]
    · rw [if_neg h5]
      exact ih _ (fun x hx => hws x (List.mem_cons_of_mem w hx))
        (by simp at hgt ⊢; omega) (by simp; omega)

theorem parseInputArgs_long_flag (w : List Char) (ws : List (List Char))
    (args : List SimpleCli.Arguments) (hne : w ≠ []) (heq : '=' ∉ w)
    (hlen : w.length > 16) :
    SimpleCli.parseInputArgs (w :: ws) args = .error .ParseBuffer := by
  have hne2 : ¬ (w = [] ∨ w = ['=']) := by
    rintro (rfl | rfl)
    · exact hne rfl
    · exact heq (List.mem_singleton_self '=')
  have hsp : splitOnChar '=' w = [w] := by
    unfold splitOnChar
    rw [splitOnCharAux_no_sep '=' w [] heq]
    simp
  rw [SimpleCli.parseInputArgs, if_neg hne2]
  simp only [hsp, List.take_succ_cons, List.take_nil, List.headD_cons]
  rw [if_pos (by simp)]
  rw [if_pos (show w.length > 16 by omega)]

theorem parseInputArgs_long_value (p v : List Char) (ws : List (List Char))
    (args : List SimpleCli.Arguments) (hp : p ≠ []) (hpe : '=' ∉ p)
    (hve : '=' ∉ v) (hp16 : p.length ≤ 16) (hv64 : v.length > 64) :
    SimpleCli.parseInputArgs ((p ++ '=' :: v) :: ws) args =
      .error .ParseBuffer := by
  have hne2 : ¬ (p ++ '=' :: v = [] ∨ p ++ '=' :: v = ['=']) := by
    rintro (h | h)
    · exact hp (List.append_eq_nil.mp h).1
    · have := congrArg List.length h
      simp at this
      have hl : p.length = 0 := by omega
      exact hp (List.length_eq_zero.mp hl)
  have hsp : splitOnChar '=' (p ++ '=' :: v) = [p, v] := by
    unfold splitOnChar
    rw [splitOnCharAux_extend '=' p ('=' :: v) [] hpe]
    rw [splitOnCharAux]
    simp only [if_pos rfl]
    rw [splitOnCharAux_no_sep '=' v [] hve]
    simp
  rw [SimpleCli.parseInputArgs, if_neg hne2]
  simp only [hsp, List.take_succ_cons, List.take_nil, List.headD_cons,
    List.getD_cons_zero, List.getD_cons_succ]
  rw [if_neg (by simp)]
  rw [if_neg (show ¬ (p.length > 16) by omega)]
  rw [if_pos (show v.length > 64 by omega)]

/-- C7 amended.  In `parse_input` (whose error enum has no `TooManyArgs` or
`ArgTooLong` variant), a sixth flag-style argument token fails with
`BufferWrite`; an over-length parameter fails with `ParseBuffer`; an
over-length value fails with `ParseBuffer` (for any line without quotes that
fits the 128-byte stage-1 buffer and a command token within 24 bytes).  The
`TooManyArgs` and `ArgTooLong` variants declared in
`src/simple_cli/errors.rs` are never produced by either cited tokenizer. -/
theorem c7_overflow_error_kinds :
    (∀ input : List Char, '"' ∉ input → input.length ≤ 128 →
      ((splitWs (input.map toAsciiLowercase)).headD ("help".toList)).length ≤ 24 →
      (∀ w ∈ (splitWs (input.map toAsciiLowercase)).tail,
        '=' ∉ w ∧ w.length ≤ 16) →
      (splitWs (input.map toAsciiLowercase)).tail.length > 5 →
      SimpleCli.parse_input input = .error .BufferWrite) ∧
    (∀ (input : List Char) (w0 : List Char) (rest : List (List Char)),
      '"' ∉ input → input.length ≤ 128 →
      ((splitWs (input.map toAsciiLowercase)).headD ("help".toList)).length ≤ 24 →
      (splitWs (input.map toAsciiLowercase)).tail = w0 :: rest →
      '=' ∉ w0 → w0.length > 16 →
      SimpleCli.parse_input input = .error .ParseBuffer) ∧
    (∀ (input : List Char) (p v : List Char) (rest : List (List Char)),
      '"' ∉ input → input.length ≤ 128 →
      ((splitWs (input.map toAsciiLowercase)).headD ("help".toList)).length ≤ 24 →
      (splitWs (input.map toAsciiLowercase)).tail = (p ++ '=' :: v) :: rest →
      p ≠ [] → '=' ∉ p → '=' ∉ v → p.length ≤ 16 → v.length > 64 →
      SimpleCli.parse_input input = .error .ParseBuffer) := by
  refine ⟨?_, ?_, ?_⟩
  · intro input hq hlen hcmd hws hcount
    have hst := stage1Aux_noQuote 128 input [] hq (by simpa using hlen)
    rw [List.nil_append] at hst
    unfold SimpleCli.parse_input
    simp only [hst]
    rw [if_neg (by omega)]
    have hargs := parseInputArgs_flag_overflow
      ((splitWs (input.map toAsciiLowercase)).tail) []
      (fun w hw => ⟨splitWsAux_ne_nil _ _ w (List.mem_of_mem_tail hw),
        (hws w hw).1, (hws w hw).2⟩)
      (by simpa using hcount) (by simp)
    rw [hargs]
  · intro input w0 rest hq hlen hcmd htail heq h16
    have hst := stage1Aux_noQuote 128 input [] hq (by simpa using hlen)
    rw [List.nil_append] at hst
    unfold SimpleCli.parse_input
    simp only [hst]
    rw [if_neg (by omega)]
    have hw0ne : w0 ≠ [] := by
      apply splitWsAux_ne_nil (input.map toAsciiLowercase) []
      rw [show splitWsAux [] (input.map toAsciiLowercase) =
        splitWs (input.map toAsciiLowercase) from rfl]
      exact List.mem_of_mem_tail (htail ▸ List.mem_cons_self w0 rest)
    rw [htail, parseInputArgs_long_flag w0 rest [] hw0ne heq h16]
  · intro input p v rest hq hlen hcmd htail hp hpe hve hp16 hv64
    have hst := stage1Aux_noQuote 128 input [] hq (by simpa using hlen)
    rw [List.nil_append] at hst
    unfold SimpleCli.parse_input
    simp only [hst]
    rw [if_neg (by omega)]
    rw [htail, parseInputArgs_long_value p v rest [] hp hpe hve hp16 hv64]

/-- C7 amended, witness: six flag tokens yield `BufferWrite`; a 17-byte
parameter and a 65-byte value yield `ParseBuffer`. -/
theorem c7_overflow_error_kinds_witness :
    SimpleCli.parse_input ("cmd a b c d e f".toList) = .error .BufferWrite ∧
    SimpleCli.parse_input ("cmd abcdefghijklmnopq".toList) =
      .error .ParseBuffer ∧
    SimpleCli.parse_input ("cmd x=".toList ++ List.replicate 65 'v') =
      .error .ParseBuffer := by
  refine ⟨?_, ?_, ?_⟩
  · exact c7_overflow_error_kinds.1 ("cmd a b c d e f".toList) (by decide)
      (by decide) (by decide) (by decide) (by decide)
  · exact c7_overflow_error_kinds.2.1 ("cmd abcdefghijklmnopq".toList)
      ("abcdefghijklmnopq".toList) [] (by decide) (by decide) (by decide)
      (by decide) (by decide) (by decide)
  · exact c7_overflow_error_kinds.2.2 ("cmd x=".toList ++ List.replicate 65 'v')
      ['x'] (List.replicate 65 'v') [] (by decide) (by decide) (by decide)
      (by decide) (by decide) (by decide) (by decide) (by decide) (by decide)

-- ———————————————————————————————————————————————————————————————————————————
-- C8 — help dispatch
-- ———————————————————————————————————————————————————————————————————————————

/-- C8 counterexample.  The claim says that when the dispatched name is
`"help"` and an argument is supplied, a known command prints only its own
description/help and an unknown command makes the dispatch fail with
`CmdNotFound`.  `Cli::execute_command` intercepts the name `"help"` before
any lookup and prints the whole table while ignoring the parsed arguments:
with the unknown argument `nosuchcmd` it still succeeds (no `CmdNotFound`),
and with the known argument `blink` it still prints the full table rather
than only that command's entry. -/
theorem c8_help_dispatch_ignores_argument :
    SimpleCli.execute_command SimpleCli.build_commands
      ⟨"help".toList, [⟨"nosuchcmd".toList, []⟩]⟩ =
      .ok (.printedTable (SimpleCli.built_in_help SimpleCli.build_commands)) ∧
    SimpleCli.execute_command SimpleCli.build_commands
      ⟨"help".toList, [⟨"blink".toList, []⟩]⟩ =
      .ok (.printedTable (SimpleCli.built_in_help SimpleCli.build_commands)) := by
  exact ⟨rfl, rfl⟩

/-- C8 amended.  The dispatcher in `src/simple_cli/mod.rs` prints the whole
table for `"help"` regardless of arguments and never fails with
`CmdNotFound` there.  The argument-sensitive behaviour the claim describes
lives in the registered `help_cmd` of `src/simple_cli/commands.rs`: with a
first argument naming a registered command (other than the reserved word
`all` and nonempty), only that command's header and description are printed;
with an unregistered name it fails with `CmdNotFound` (this `Command`
generation has no separate help text field — the description is the help
text). -/
theorem c8_help_cmd_behavior (cmds : List SimpleCli.CmdEntry)
    (args : List SimpleCli.Arguments) (a : SimpleCli.Arguments)
    (hhead : args.head? = some a) (hall : a.param ≠ "all".toList)
    (hne : a.param ≠ []) :
    (∀ c : SimpleCli.CmdEntry, SimpleCli.get_command cmds a.param = .ok c →
      SimpleCli.help_cmd args cmds =
        .ok [(" Help: ".toList) ++ a.param ++ (" \n".toList),
             (" ".toList) ++ a.param ++ (" - ".toList) ++ c.desc ++
               (" \n".toList)]) ∧
    ((∀ c : SimpleCli.CmdEntry, SimpleCli.get_command cmds a.param ≠ .ok c) →
      SimpleCli.help_cmd args cmds = .error (.CmdNotFound a.param)) := by
  constructor
  · intro c hc
    have hdesc : SimpleCli.get_description cmds a.param = .ok c.desc := by
      unfold SimpleCli.get_description
      simp only [hc]
    unfold SimpleCli.help_cmd
    simp only [hhead, hdesc]
    unfold SimpleCli.help
    rw [if_neg hall, if_neg hne]
    simp only [hdesc]
  · intro hno
    unfold SimpleCli.help_cmd
    simp only [hhead]
    cases hcm : SimpleCli.get_command cmds a.param with
    | ok c => exact absurd hcm (hno c)
    | error e =>
      have hdesc : SimpleCli.get_description cmds a.param = .error e := by
        unfold SimpleCli.get_description
        simp only [hcm]
      simp only [hdesc]

/-- C8 amended, witness: on the actual command table, `help blink` prints
only the blink entry, and `help nosuchcmd` fails with `CmdNotFound`. -/
theorem c8_help_cmd_behavior_witness :
    SimpleCli.help_cmd [⟨"blink".toList, []⟩] SimpleCli.build_commands =
      .ok [(" Help: ".toList) ++ "blink".toList ++ (" \n".toList),
           (" ".toList) ++ "blink".toList ++ (" - ".toList) ++
             ("Blink Onboard Led \n [times=10] [interval=200(ms)] [help]".toList)
             ++ (" \n".toList)] ∧
    SimpleCli.help_cmd [⟨"nosuchcmd".toList, []⟩] SimpleCli.build_commands =
      .error (.CmdNotFound ("nosuchcmd".toList)) := by
  constructor
  · exact (c8_help_cmd_behavior SimpleCli.build_commands
      [⟨"blink".toList, []⟩] ⟨"blink".toList, []⟩ rfl (by decide) (by decide)).1
      ⟨"blink".toList,
        "Blink Onboard Led \n [times=10] [interval=200(ms)] [help]".toList⟩ rfl
  · exact (c8_help_cmd_behavior SimpleCli.build_commands
      [⟨"nosuchcmd".toList, []⟩] ⟨"nosuchcmd".toList, []⟩ rfl (by decide)
      (by decide)).2
      (fun c hc => by
        rw [show SimpleCli.get_command SimpleCli.build_commands
          ("nosuchcmd".toList) = .error (.CmdNotFound ("nosuchcmd".toList))
          from rfl] at hc
        exact Except.noConfusion hc)

end PicoSpec
